import Mathlib

/-!
Verification of the staleness-aware formatting engine (`src/engine.rs`,
`run_treefmt`).  The engine is embedded shallowly: external collaborators
(config loader, formatter factory, cache manifest, tree walker, formatter
subprocesses, the post-run filesystem state) are supplied as oracles in an
`Env` record, and `runTreefmt` reproduces the control flow of the Rust
function, returning a `RunTrace` that records the outcome together with the
observable effects (log events, cache writes, formatter invocations and the
intermediate match sets).
-/

set_option autoImplicit false

namespace Treefmt

/-- Modification timestamps; compared only for equality (spec §3 ModTime). -/
abbrev Mtime := Nat

/-- A filesystem path: an absolute-flag plus its components.  This mirrors
`std::path::PathBuf` to the extent the engine uses it: `is_absolute`,
`starts_with` (component-wise prefix) and equality. -/
structure FsPath where
  absolute : Bool
  components : List String
deriving DecidableEq, Repr

/-- `Path::is_absolute`. -/
def FsPath.isAbsolute (p : FsPath) : Bool := p.absolute

/-- `Path::starts_with`: component-wise prefix with matching absoluteness. -/
def FsPath.startsWith (p base : FsPath) : Bool :=
  p.absolute == base.absolute && base.components.isPrefixOf p.components

/-- Modelled from the spec: `expand_path` lives in the crate root, outside
`src/`.  Per §4.1 it normalizes a user-supplied path against the working
directory, producing an absolute path. -/
def expand_path (path work_dir : FsPath) : FsPath :=
  if path.absolute then path
  else { absolute := work_dir.absolute, components := work_dir.components ++ path.components }

abbrev FormatterName := String

/-- Modelled from the spec: a formatter configuration record produced by the
external config loader (§6); the engine only compares such records for
identity (§3 manifest-validity invariant). -/
structure FmtConfig where
  id : Nat
deriving DecidableEq, Repr

/-- A constructed formatter: its name, the configuration it was built from and
its pure pattern test `is_match` (spec §6, Formatter external behaviour). -/
structure Formatter where
  name : FormatterName
  config : FmtConfig
  isMatch : FsPath → Bool

/-- Lookup in an association list, first match (`BTreeMap::get`). -/
def alookup {α β : Type} [DecidableEq α] : List (α × β) → α → Option β
  | [], _ => none
  | (k, v) :: rest, a => if k = a then some v else alookup rest a

/-- Insert/replace in an association list (`BTreeMap::insert`). -/
def ainsert {α β : Type} [DecidableEq α] : List (α × β) → α → β → List (α × β)
  | [], a, b => [(a, b)]
  | (k, v) :: rest, a, b => if k = a then (a, b) :: rest else (k, v) :: ainsert rest a b

/-- The keys of an association list. -/
def keysOf {α β : Type} (l : List (α × β)) : List α := l.map Prod.fst

/-- `MatchSet`: formatter name → (path → mtime), as an association list
(spec §3). -/
abbrev MatchSet := List (FormatterName × List (FsPath × Mtime))

/-- Insert a (formatter, path, mtime) triple into a match set
(`matches.entry(name).or_insert_with(BTreeMap::new).insert(path, mtime)`). -/
def minsert (m : MatchSet) (f : FormatterName) (p : FsPath) (t : Mtime) : MatchSet :=
  ainsert m f (ainsert ((alookup m f).getD []) p t)

/-- Observable log events emitted by the engine (CLOG calls). -/
inductive LogEvent where
  | warnOutsideRoot (path : FsPath)
  | warnNoPaths
  | errFormatterLoad (name : FormatterName)
  | warnNoFileType (path : FsPath)
  | warnTraversal (msg : String)
  | infoProcessed (name : FormatterName)
  | errFormatterFailed (name : FormatterName)
deriving DecidableEq, Repr

/-- The `unwrap`/`assert` sites of `run_treefmt` that can panic. -/
inductive PanicSite where
  | metaMtime
  | fmtLookup
  | postMtime
  | diffName
  | diffPath
deriving DecidableEq, Repr

/-- How a run can end other than success. -/
inductive RunErr where
  | assertFailed
  | configError (msg : String)
  | panic (site : PanicSite)
  | failOnChange
deriving DecidableEq, Repr

/-! ### Path resolution (engine.rs lines 45–57) -/

structure ResolveOut where
  kept : List FsPath
  dropped : List FsPath
  logs : List LogEvent
deriving DecidableEq, Repr

/-- One step of the path-resolution fold: expand the path against the working
directory; keep it if it starts with the project root, otherwise warn and
drop it. -/
def resolveStep (tree_root work_dir : FsPath) (acc : ResolveOut) (path : FsPath) : ResolveOut :=
  let abs_path := expand_path path work_dir
  if abs_path.startsWith tree_root then
    { acc with kept := acc.kept ++ [abs_path] }
  else
    { acc with dropped := acc.dropped ++ [abs_path],
               logs := acc.logs ++ [LogEvent.warnOutsideRoot path] }

def resolvePaths (tree_root work_dir : FsPath) (paths : List FsPath) : ResolveOut :=
  paths.foldl (resolveStep tree_root work_dir) ⟨[], [], []⟩

/-! ### Formatter loading (engine.rs lines 71–86) -/

structure LoadOut where
  formatters : List (FormatterName × Formatter)
  logs : List LogEvent

/-- One step of the formatter-loading fold: build the formatter from its
config; on success insert it keyed by its own name, on failure log and skip. -/
def loadStep (tree_root : FsPath)
    (mk : FsPath → FormatterName → FmtConfig → Except String Formatter)
    (acc : LoadOut) (ent : FormatterName × FmtConfig) : LoadOut :=
  match mk tree_root ent.1 ent.2 with
  | Except.ok fmt => { acc with formatters := ainsert acc.formatters fmt.name fmt }
  | Except.error _ => { acc with logs := acc.logs ++ [LogEvent.errFormatterLoad ent.1] }

def loadFormatters (tree_root : FsPath)
    (mk : FsPath → FormatterName → FmtConfig → Except String Formatter)
    (cfg : List (FormatterName × FmtConfig)) : LoadOut :=
  cfg.foldl (loadStep tree_root mk) ⟨[], []⟩

/-! ### Cache manifest (modelled from the spec; `eval_cache.rs` is outside `src/`) -/

/-- Modelled from the spec: the Cache Manifest (§3) holds, per formatter, the
formatter definition its entries were validated against and the per-file
recorded mtimes. -/
structure CacheManifest where
  configs : List (FormatterName × FmtConfig)
  entries : List (FormatterName × List (FsPath × Mtime))
deriving DecidableEq, Repr

def CacheManifest.empty : CacheManifest := ⟨[], []⟩

/-- Modelled from the spec: `update_formatters` (§4.2 invalidateChangedFormatters)
drops every cached entry whose formatter definition differs from the currently
configured one, and records the current definitions. -/
def CacheManifest.update_formatters (c : CacheManifest)
    (fmts : List (FormatterName × Formatter)) : CacheManifest :=
  { configs := fmts.map (fun ent => (ent.1, ent.2.config)),
    entries := c.entries.filter (fun ent =>
      match alookup fmts ent.1, alookup c.configs ent.1 with
      | some fmt, some cfg => decide (fmt.config = cfg)
      | _, _ => false) }

/-- Modelled from the spec: `filter_matches` (§4.2 filterStale) keeps only the
stale pairs; a pair is clean iff the manifest records an identical mtime for
it (§3 staleness invariant; definitions were already synchronised by
`update_formatters`). -/
def CacheManifest.filter_matches (c : CacheManifest) (m : MatchSet) : MatchSet :=
  m.map (fun ent => (ent.1, ent.2.filter (fun pt =>
    decide (¬ alookup ((alookup c.entries ent.1).getD []) pt.1 = some pt.2))))

/-- Merge a list of (path, mtime) pairs into a per-formatter entry map,
replacing prior entries path by path. -/
def mergeInto (inner : List (FsPath × Mtime)) (vs : List (FsPath × Mtime)) :
    List (FsPath × Mtime) :=
  vs.foldl (fun inner pt => ainsert inner pt.1 pt.2) inner

/-- One formatter entry of the result set merged into the cache entries. -/
def addResultsStep (es : List (FormatterName × List (FsPath × Mtime)))
    (ent : FormatterName × List (FsPath × Mtime)) :
    List (FormatterName × List (FsPath × Mtime)) :=
  ainsert es ent.1 (mergeInto ((alookup es ent.1).getD []) ent.2)

/-- Modelled from the spec: `add_results` (§4.2 mergeResults) records, for each
formatter and path, the newly observed mtime, replacing any prior entry. -/
def CacheManifest.add_results (c : CacheManifest) (new : MatchSet) : CacheManifest :=
  { c with entries := new.foldl addResultsStep c.entries }

/-! ### Tree walk and classification (engine.rs lines 101–157) -/

/-- A directory entry as the walker hands it to the engine: its path, its file
type if it could be determined (`some isDir`), and its metadata mtime if
readable. -/
structure DirEntry where
  path : FsPath
  fileType : Option Bool
  metadata : Option Mtime
deriving DecidableEq, Repr

/-- An item yielded by the tree walker: an entry, or a traversal error. -/
inductive WalkEvent where
  | ok (entry : DirEntry)
  | err (msg : String)
deriving DecidableEq, Repr

/-- Modelled from the spec: the tree walker (the external `ignore` crate,
§4.3) yields the filesystem events lying under the given root paths, honoring
ignore rules; traversal errors surface as error events. -/
def walker (roots : List FsPath) (ignored : FsPath → Bool) (fs : List WalkEvent) : List WalkEvent :=
  fs.filter (fun ev => match ev with
    | WalkEvent.ok e => roots.any (fun r => e.path.startsWith r) && !(ignored e.path)
    | WalkEvent.err _ => true)

structure WalkAcc where
  traversed : Nat
  matched : Nat
  found : MatchSet
  logs : List LogEvent

/-- The body of the per-file formatter loop (engine.rs lines 131–144): if the
formatter matches the path, bump the matched counter and record the entry
mtime, panicking (`metadata().unwrap()`) when the metadata is unavailable. -/
def classifyStep (path : FsPath) (md : Option Mtime) (acc : WalkAcc)
    (ent : FormatterName × Formatter) : Except PanicSite WalkAcc :=
  if ent.2.isMatch path then
    match md with
    | some mtime => Except.ok { acc with
        matched := acc.matched + 1,
        found := minsert acc.found ent.2.name path mtime }
    | none => Except.error PanicSite.metaMtime
  else Except.ok acc

/-- One iteration of the walk loop (engine.rs lines 121–157): classify a file
entry against every formatter, warn and skip entries without a file type,
warn and continue on traversal errors, skip directories. -/
def walkStep (fmts : List (FormatterName × Formatter)) (acc : WalkAcc) (ev : WalkEvent) :
    Except PanicSite WalkAcc :=
  match ev with
  | WalkEvent.ok e =>
    match e.fileType with
    | some isDir =>
      if isDir then Except.ok acc
      else List.foldlM (classifyStep e.path e.metadata)
        { acc with traversed := acc.traversed + 1 } fmts
    | none => Except.ok { acc with logs := acc.logs ++ [LogEvent.warnNoFileType e.path] }
  | WalkEvent.err msg => Except.ok { acc with logs := acc.logs ++ [LogEvent.warnTraversal msg] }

def walkClassify (fmts : List (FormatterName × Formatter)) (events : List WalkEvent) :
    Except PanicSite WalkAcc :=
  List.foldlM (walkStep fmts) ⟨0, 0, [], []⟩ events

/-! ### Parallel formatting scheduler (engine.rs lines 169–211) -/

/-- The post-run mtime re-read of one path (`get_path_mtime(&path).unwrap()`). -/
def readPost (post : FormatterName → FsPath → Option Mtime) (f : FormatterName)
    (p : FsPath) : Except PanicSite (FsPath × Mtime) :=
  match post f p with
  | some t => Except.ok (p, t)
  | none => Except.error PanicSite.postMtime

/-- One formatter batch (one closure of the `par_iter().map(...)`): look the
formatter up (unwrap), skip empty batches, on a successful run re-read every
path's mtime (unwrap), on a failed run keep the pre-run mtimes. -/
def schedEntry (fmts : List (FormatterName × Formatter))
    (oc : FormatterName → List FsPath → Bool)
    (post : FormatterName → FsPath → Option Mtime)
    (ent : FormatterName × List (FsPath × Mtime)) :
    Except PanicSite (FormatterName × List (FsPath × Mtime)) :=
  match alookup fmts ent.1 with
  | none => Except.error PanicSite.fmtLookup
  | some _ =>
    let paths := keysOf ent.2
    if paths.isEmpty then Except.ok ent
    else if oc ent.1 paths then
      (paths.mapM (readPost post ent.1)).map (fun l => (ent.1, l))
    else Except.ok ent

def schedule (fmts : List (FormatterName × Formatter))
    (oc : FormatterName → List FsPath → Bool)
    (post : FormatterName → FsPath → Option Mtime)
    (m : MatchSet) : Except PanicSite MatchSet :=
  m.mapM (schedEntry fmts oc post)

/-- The formatter invocations performed by the scheduler: every non-empty
batch, with its full list of paths. -/
def schedInvoked (m : MatchSet) : List (FormatterName × List FsPath) :=
  m.filterMap (fun ent =>
    if (keysOf ent.2).isEmpty then none else some (ent.1, keysOf ent.2))

/-- The log events emitted by the scheduler: an info line per successful
batch, an error line per failed batch. -/
def schedLogs (oc : FormatterName → List FsPath → Bool) (m : MatchSet) : List LogEvent :=
  m.filterMap (fun ent =>
    if (keysOf ent.2).isEmpty then none
    else if oc ent.1 (keysOf ent.2) then some (LogEvent.infoProcessed ent.1)
    else some (LogEvent.errFormatterFailed ent.1))

/-! ### Result diff (engine.rs lines 221–251) -/

/-- The paths of a new-result entry whose mtimes differ from the recorded
pre-run ones (the pure content of the diff fold, in order). -/
def diffList (old_paths : List (FsPath × Mtime)) (new_paths : List (FsPath × Mtime)) :
    List FsPath :=
  (new_paths.filter (fun pt => decide (¬ alookup old_paths pt.1 = some pt.2))).map Prod.fst

/-- One step of the diff fold over a batch entry: look up the pre-run mtime
(`unwrap`) and keep the path when the mtimes differ. -/
def diffStep (old_paths : List (FsPath × Mtime)) (acc : List FsPath)
    (pt : FsPath × Mtime) : Except PanicSite (List FsPath) :=
  match alookup old_paths pt.1 with
  | none => Except.error PanicSite.diffPath
  | some ov => Except.ok (if ov = pt.2 then acc else acc ++ [pt.1])

/-- Diff one formatter entry of the scheduler result against the post-filter
match set: a path is changed iff its new mtime differs from its pre-run one;
both lookups `unwrap`. -/
def diffEntry (oldM : MatchSet) (ent : FormatterName × List (FsPath × Mtime)) :
    Except PanicSite (FormatterName × List FsPath) :=
  match alookup oldM ent.1 with
  | none => Except.error PanicSite.diffName
  | some old_paths =>
    (ent.2.foldlM (diffStep old_paths) []).map (fun l => (ent.1, l))

def diffPhase (oldM newM : MatchSet) : Except PanicSite (List (FormatterName × List FsPath)) :=
  newM.mapM (diffEntry oldM)

/-- `matches.values().map(|x| x.len()).sum()`. -/
def countFiles (m : MatchSet) : Nat := (m.map (fun ent => ent.2.length)).sum

/-- Total number of reformatted paths across all formatters. -/
def countChanged (changed : List (FormatterName × List FsPath)) : Nat :=
  (changed.map (fun ent => ent.2.length)).sum

/-! ### The full run -/

/-- Everything `run_treefmt` interacts with: its arguments plus oracles for
the external collaborators (config loader result, formatter factory, stored
cache, ignore rules, filesystem walk events, formatter run outcomes, post-run
mtime reads). -/
structure Env where
  tree_root : FsPath
  work_dir : FsPath
  cache_dir : FsPath
  treefmt_toml : FsPath
  target_paths : List FsPath
  clear_cache : Bool
  fail_on_change : Bool
  config : Except String (List (FormatterName × FmtConfig))
  mkFormatter : FsPath → FormatterName → FmtConfig → Except String Formatter
  storedCache : CacheManifest
  ignored : FsPath → Bool
  fsEvents : List WalkEvent
  fmtOutcome : FormatterName → List FsPath → Bool
  postMtime : FormatterName → FsPath → Option Mtime

/-- The outcome of a run with its observable effects and intermediate data. -/
structure RunTrace where
  res : Except RunErr Unit
  logs : List LogEvent
  configLoaded : Bool
  formattersLoaded : Bool
  cacheRead : Bool
  walkRun : Bool
  cacheWritten : Option CacheManifest
  invoked : List (FormatterName × List FsPath)
  matchSet : MatchSet
  filteredSet : MatchSet
  newMatches : MatchSet
  traversed : Nat
  matched : Nat
  filtered : Nat
  reformatted : Nat
  reachedReport : Bool

/-- A trace for a run that stopped before doing any work. -/
def RunTrace.base (res : Except RunErr Unit) (logs : List LogEvent) : RunTrace :=
  { res := res, logs := logs, configLoaded := false, formattersLoaded := false,
    cacheRead := false, walkRun := false, cacheWritten := none, invoked := [],
    matchSet := [], filteredSet := [], newMatches := [],
    traversed := 0, matched := 0, filtered := 0, reformatted := 0, reachedReport := false }

/-- The reporting tail of the run (engine.rs lines 214–273): record the
scheduler results in the cache, write it, diff old against new mtimes, count
the reformatted files and fail on change when requested. -/
def runReport (env : Env) (logs0 : List LogEvent) (acc : WalkAcc)
    (filtered newM : MatchSet) (cache2 : CacheManifest) : RunTrace :=
  match diffPhase filtered newM with
  | Except.error site =>
    { res := Except.error (RunErr.panic site),
      logs := logs0,
      configLoaded := true, formattersLoaded := true,
      cacheRead := !env.clear_cache, walkRun := true,
      cacheWritten := some cache2, invoked := schedInvoked filtered,
      matchSet := acc.found, filteredSet := filtered, newMatches := newM,
      traversed := acc.traversed, matched := acc.matched,
      filtered := countFiles filtered, reformatted := 0, reachedReport := false }
  | Except.ok changed =>
    { res := if countChanged changed != 0 && env.fail_on_change
        then Except.error RunErr.failOnChange else Except.ok (),
      logs := logs0,
      configLoaded := true, formattersLoaded := true,
      cacheRead := !env.clear_cache, walkRun := true,
      cacheWritten := some cache2, invoked := schedInvoked filtered,
      matchSet := acc.found, filteredSet := filtered, newMatches := newM,
      traversed := acc.traversed, matched := acc.matched,
      filtered := countFiles filtered, reformatted := countChanged changed,
      reachedReport := true }

/-- The cache-filtering and scheduling stage (engine.rs lines 160–217). -/
def runSched (env : Env) (logs0 : List LogEvent) (fmts : List (FormatterName × Formatter))
    (acc : WalkAcc) (cache1 : CacheManifest) : RunTrace :=
  let filtered := cache1.filter_matches acc.found
  match schedule fmts env.fmtOutcome env.postMtime filtered with
  | Except.error site =>
    { RunTrace.base (Except.error (RunErr.panic site)) (logs0 ++ acc.logs) with
      configLoaded := true, formattersLoaded := true,
      cacheRead := !env.clear_cache, walkRun := true,
      matchSet := acc.found, filteredSet := filtered,
      traversed := acc.traversed, matched := acc.matched,
      filtered := countFiles filtered }
  | Except.ok newM =>
    runReport env (logs0 ++ acc.logs ++ schedLogs env.fmtOutcome filtered) acc
      filtered newM (cache1.add_results newM)

/-- The stage after a successful config load (engine.rs lines 71–157): build
the formatters, load/clear and invalidate the cache, walk and classify. -/
def runConfig (env : Env) (rlogs : List LogEvent) (kept : List FsPath)
    (cfg : List (FormatterName × FmtConfig)) : RunTrace :=
  let ld := loadFormatters env.tree_root env.mkFormatter cfg
  let cache0 := if env.clear_cache then CacheManifest.empty else env.storedCache
  let cache1 := cache0.update_formatters ld.formatters
  let events := walker kept env.ignored env.fsEvents
  match walkClassify ld.formatters events with
  | Except.error site =>
    { RunTrace.base (Except.error (RunErr.panic site)) (rlogs ++ ld.logs) with
      configLoaded := true, formattersLoaded := true,
      cacheRead := !env.clear_cache, walkRun := true }
  | Except.ok acc => runSched env (rlogs ++ ld.logs) ld.formatters acc cache1

/-- The stage after path resolution (engine.rs lines 59–66): short-circuit on
an empty target list, then load the configuration. -/
def runResolved (env : Env) (r : ResolveOut) : RunTrace :=
  if r.kept.isEmpty then
    RunTrace.base (Except.ok ()) (r.logs ++ [LogEvent.warnNoPaths])
  else
    match env.config with
    | Except.error msg =>
      { RunTrace.base (Except.error (RunErr.configError msg)) r.logs with
        configLoaded := true }
    | Except.ok cfg => runConfig env r.logs r.kept cfg

/-- The engine (`run_treefmt`, engine.rs lines 13–274): assert absoluteness of
the four path arguments, resolve and root-filter the target paths, then run
the staged pipeline above. -/
def runTreefmt (env : Env) : RunTrace :=
  if !(env.tree_root.isAbsolute && env.work_dir.isAbsolute
      && env.cache_dir.isAbsolute && env.treefmt_toml.isAbsolute) then
    RunTrace.base (Except.error RunErr.assertFailed) []
  else
    runResolved env (resolvePaths env.tree_root env.work_dir env.target_paths)

/-! ### Concrete fixtures

A minimal project: root `/r`, one file `/r/f.txt` with mtime 10, one
formatter `"a"` matching everything, whose run bumps every mtime to 20. -/

def sampleRoot : FsPath := ⟨true, ["r"]⟩

def sampleFile : FsPath := ⟨true, ["r", "f.txt"]⟩

/-- A run in which the single formatter succeeds and rewrites the file. -/
def baseEnv : Env :=
  { tree_root := sampleRoot, work_dir := sampleRoot, cache_dir := ⟨true, ["c"]⟩,
    treefmt_toml := ⟨true, ["r", "treefmt.toml"]⟩,
    target_paths := [sampleRoot], clear_cache := false, fail_on_change := false,
    config := Except.ok [("a", ⟨0⟩)],
    mkFormatter := fun _ n c => Except.ok ⟨n, c, fun _ => true⟩,
    storedCache := CacheManifest.empty,
    ignored := fun _ => false,
    fsEvents := [WalkEvent.ok ⟨sampleFile, some false, some 10⟩],
    fmtOutcome := fun _ _ => true,
    postMtime := fun _ _ => some 20 }

/-- The same run but the formatter invocation fails, leaving the file at its
pre-run mtime on disk. -/
def failEnv : Env := { baseEnv with fmtOutcome := fun _ _ => false, postMtime := fun _ _ => some 10 }

/-- A second run right after `failEnv`, with nothing changed on disk, loading
the cache the first run wrote. -/
def rerunAfterFailEnv : Env :=
  { failEnv with storedCache := (runTreefmt failEnv).cacheWritten.getD CacheManifest.empty }

/-- A run given no target paths at all. -/
def noPathsEnv : Env := { baseEnv with target_paths := [] }

/-- A run whose formatter invocation fails while the file on disk nonetheless
ends up with a different mtime (the tool died after touching the file). -/
def failDirtyEnv : Env :=
  { baseEnv with fmtOutcome := fun _ _ => false, postMtime := fun _ _ => some 99 }

/-- A run whose only target path is relative (it resolves to the root). -/
def relTargetEnv : Env := { baseEnv with target_paths := [⟨false, []⟩] }

/-- An absolute path outside the project root. -/
def outPath : FsPath := ⟨true, ["x", "o.txt"]⟩

/-- A run given one target inside the root and one outside it. -/
def outsideEnv : Env := { baseEnv with target_paths := [sampleRoot, outPath] }

/-- A catch-all formatter named `a`. -/
def fmtA : Formatter := ⟨"a", ⟨0⟩, fun _ => true⟩

/-- A catch-all formatter named `b`. -/
def fmtB : Formatter := ⟨"b", ⟨0⟩, fun _ => true⟩

/-- Two formatters competing for every file. -/
def fanFmts : List (FormatterName × Formatter) := [("a", fmtA), ("b", fmtB)]

/-- The walk accumulator after classifying `sampleFile` against `fanFmts`. -/
def fanAcc : WalkAcc :=
  { traversed := 1, matched := 2,
    found := [("a", [(sampleFile, 10)]), ("b", [(sampleFile, 10)])], logs := [] }

/-! ### Derived definitions used by the statements -/

deriving instance DecidableEq for Except

/-- Key-distinctness of an association list (the `BTreeMap` representation
invariant). -/
def NodupKeys {α β : Type} (l : List (α × β)) : Prop := (keysOf l).Nodup

instance {α β : Type} [DecidableEq α] (l : List (α × β)) : Decidable (NodupKeys l) := by
  unfold NodupKeys
  infer_instance

/-- A well-formed match set: distinct formatter keys, distinct paths per
formatter. -/
def MSWf (m : MatchSet) : Prop := NodupKeys m ∧ ∀ ent ∈ m, NodupKeys ent.2

/-- All file paths appearing in a match set. -/
def msPaths (m : MatchSet) : List FsPath := (m.map (fun ent => keysOf ent.2)).flatten

/-- The pure content of the per-file classification loop in the case where
the entry metadata is available. -/
def classifyPure (path : FsPath) (t : Mtime) (acc : WalkAcc)
    (fmts : List (FormatterName × Formatter)) : WalkAcc :=
  fmts.foldl (fun acc ent =>
    if ent.2.isMatch path then
      { acc with matched := acc.matched + 1, found := minsert acc.found ent.2.name path t }
    else acc) acc

/-! ### Association-list lemmas -/

theorem alookup_ainsert_self {α β : Type} [DecidableEq α] (l : List (α × β)) (a : α) (b : β) :
    alookup (ainsert l a b) a = some b := by
  induction l with
  | nil => simp [ainsert, alookup]
  | cons hd tl ih =>
    obtain ⟨k, v⟩ := hd
    by_cases h : k = a
    · simp [ainsert, h, alookup]
    · simp [ainsert, h, alookup, ih]

theorem alookup_ainsert_ne {α β : Type} [DecidableEq α] (l : List (α × β)) (a k : α) (b : β)
    (h : k ≠ a) : alookup (ainsert l a b) k = alookup l k := by
  induction l with
  | nil => simp [ainsert, alookup, Ne.symm h]
  | cons hd tl ih =>
    obtain ⟨k0, v0⟩ := hd
    by_cases hk : k0 = a
    · subst hk
      simp [ainsert, alookup, Ne.symm h]
    · simp only [ainsert, if_neg hk]
      by_cases hq : k0 = k
      · simp [alookup, hq]
      · simp [alookup, hq, ih]

theorem alookup_eq_none_iff {α β : Type} [DecidableEq α] (l : List (α × β)) (k : α) :
    alookup l k = none ↔ k ∉ keysOf l := by
  induction l with
  | nil => simp [alookup, keysOf]
  | cons hd tl ih =>
    obtain ⟨k0, v0⟩ := hd
    by_cases h : k0 = k
    · simp [alookup, h, keysOf]
    · simp [alookup, h, keysOf, ih, Ne.symm h]

theorem alookup_isSome_iff {α β : Type} [DecidableEq α] (l : List (α × β)) (k : α) :
    (alookup l k).isSome = true ↔ k ∈ keysOf l := by
  rw [Option.isSome_iff_ne_none, not_iff_comm, ← alookup_eq_none_iff]

theorem alookup_mem {α β : Type} [DecidableEq α] {l : List (α × β)} {k : α} {v : β}
    (h : alookup l k = some v) : (k, v) ∈ l := by
  induction l with
  | nil => simp [alookup] at h
  | cons hd tl ih =>
    obtain ⟨k0, v0⟩ := hd
    by_cases hk : k0 = k
    · subst hk
      simp [alookup] at h
      simp [h]
    · simp only [alookup, if_neg hk] at h
      exact List.mem_cons_of_mem _ (ih h)

theorem mem_keysOf_of_mem {α β : Type} {l : List (α × β)} {k : α} {v : β}
    (h : (k, v) ∈ l) : k ∈ keysOf l := by
  simpa [keysOf] using List.mem_map_of_mem Prod.fst h

theorem alookup_of_mem_nodup {α β : Type} [DecidableEq α] {l : List (α × β)} {k : α} {v : β}
    (hn : NodupKeys l) (h : (k, v) ∈ l) : alookup l k = some v := by
  induction l with
  | nil => cases h
  | cons hd tl ih =>
    obtain ⟨k0, v0⟩ := hd
    rcases List.mem_cons.mp h with heq | hmem
    · cases heq
      simp [alookup]
    · have hk : k0 ≠ k := by
        intro hk
        subst hk
        exact (List.nodup_cons.mp hn).1 (mem_keysOf_of_mem hmem)
      simp only [alookup, if_neg hk]
      exact ih (List.nodup_cons.mp hn).2 hmem

theorem mem_keysOf_ainsert {α β : Type} [DecidableEq α] (l : List (α × β)) (a j : α) (b : β) :
    j ∈ keysOf (ainsert l a b) ↔ j = a ∨ j ∈ keysOf l := by
  induction l with
  | nil => simp [ainsert, keysOf]
  | cons hd tl ih =>
    obtain ⟨k0, v0⟩ := hd
    by_cases hk : k0 = a
    · subst hk
      simp [ainsert, keysOf]
    · simp [ainsert, hk, keysOf] at ih ⊢
      tauto

theorem nodupKeys_ainsert {α β : Type} [DecidableEq α] (l : List (α × β)) (a : α) (b : β)
    (h : NodupKeys l) : NodupKeys (ainsert l a b) := by
  induction l with
  | nil => simp [NodupKeys, ainsert, keysOf]
  | cons hd tl ih =>
    obtain ⟨k0, v0⟩ := hd
    unfold NodupKeys at h
    rw [show keysOf ((k0, v0) :: tl) = k0 :: keysOf tl from rfl, List.nodup_cons] at h
    by_cases hk : k0 = a
    · subst hk
      unfold NodupKeys
      rw [show ainsert ((k0, v0) :: tl) k0 b = (k0, b) :: tl from by simp [ainsert]]
      rw [show keysOf ((k0, b) :: tl) = k0 :: keysOf tl from rfl, List.nodup_cons]
      exact h
    · unfold NodupKeys
      rw [show ainsert ((k0, v0) :: tl) a b = (k0, v0) :: ainsert tl a b from by simp [ainsert, hk]]
      rw [show keysOf ((k0, v0) :: ainsert tl a b) = k0 :: keysOf (ainsert tl a b) from rfl,
        List.nodup_cons]
      refine ⟨?_, ih h.2⟩
      rw [mem_keysOf_ainsert]
      rintro (rfl | hmem)
      · exact hk rfl
      · exact h.1 hmem

theorem mem_ainsert {α β : Type} [DecidableEq α] {l : List (α × β)} {a : α} {b : β}
    {ent : α × β} (h : ent ∈ ainsert l a b) : ent = (a, b) ∨ ent ∈ l := by
  induction l with
  | nil => simpa [ainsert] using h
  | cons hd tl ih =>
    obtain ⟨k0, v0⟩ := hd
    by_cases hk : k0 = a
    · subst hk
      simp only [ainsert, if_pos rfl] at h
      rcases List.mem_cons.mp h with heq | hmem
      · exact Or.inl heq
      · exact Or.inr (List.mem_cons_of_mem _ hmem)
    · simp only [ainsert, if_neg hk] at h
      rcases List.mem_cons.mp h with heq | hmem
      · subst heq
        exact Or.inr (List.mem_cons_self _ _)
      · rcases ih hmem with heq | hm
        · exact Or.inl heq
        · exact Or.inr (List.mem_cons_of_mem _ hm)

/-! ### Except monad computation lemmas -/

theorem except_bind_ok {ε α β : Type} (a : α) (f : α → Except ε β) :
    (Except.ok a >>= f : Except ε β) = f a := rfl

theorem except_bind_error {ε α β : Type} (e : ε) (f : α → Except ε β) :
    (Except.error e >>= f : Except ε β) = Except.error e := rfl

theorem except_map_ok {ε α β : Type} (a : α) (f : α → β) :
    (Except.ok a : Except ε α).map f = Except.ok (f a) := rfl

theorem except_map_error {ε α β : Type} (e : ε) (f : α → β) :
    (Except.error e : Except ε α).map f = Except.error e := rfl

/-! ### minsert and msPaths lemmas -/

theorem minsert_lookup_self (m : MatchSet) (f : FormatterName) (p : FsPath) (t : Mtime) :
    alookup ((alookup (minsert m f p t) f).getD []) p = some t := by
  unfold minsert
  rw [alookup_ainsert_self]
  simpa using alookup_ainsert_self ((alookup m f).getD []) p t

theorem minsert_lookup_ne_name (m : MatchSet) (f g : FormatterName) (p : FsPath) (t : Mtime)
    (h : g ≠ f) : alookup (minsert m f p t) g = alookup m g :=
  alookup_ainsert_ne _ _ _ _ h

theorem mswf_minsert {m : MatchSet} (f : FormatterName) (p : FsPath) (t : Mtime)
    (h : MSWf m) : MSWf (minsert m f p t) := by
  obtain ⟨h1, h2⟩ := h
  refine ⟨nodupKeys_ainsert _ _ _ h1, ?_⟩
  intro ent hent
  rcases mem_ainsert hent with heq | hmem
  · subst heq
    cases halt : alookup m f with
    | none => simpa [halt] using nodupKeys_ainsert ([] : List (FsPath × Mtime)) p t (by simp [NodupKeys, keysOf])
    | some pm =>
      simpa [halt] using nodupKeys_ainsert pm p t (h2 _ (alookup_mem halt))
  · exact h2 _ hmem

theorem mem_msPaths {m : MatchSet} {q : FsPath} :
    q ∈ msPaths m ↔ ∃ ent, ent ∈ m ∧ q ∈ keysOf ent.2 := by
  simp only [msPaths, List.mem_flatten, List.mem_map]
  constructor
  · rintro ⟨l, ⟨ent, hent, rfl⟩, hq⟩
    exact ⟨ent, hent, hq⟩
  · rintro ⟨ent, hent, hq⟩
    exact ⟨keysOf ent.2, ⟨ent, hent, rfl⟩, hq⟩

theorem msPaths_minsert {m : MatchSet} {f : FormatterName} {p q : FsPath} {t : Mtime}
    (h : q ∈ msPaths (minsert m f p t)) : q = p ∨ q ∈ msPaths m := by
  rw [mem_msPaths] at h
  obtain ⟨ent, hent, hq⟩ := h
  rcases mem_ainsert hent with heq | hmem
  · subst heq
    rw [mem_keysOf_ainsert] at hq
    rcases hq with rfl | hq
    · exact Or.inl rfl
    · cases halt : alookup m f with
      | none => rw [halt] at hq; simp [keysOf] at hq
      | some pm =>
        refine Or.inr (mem_msPaths.mpr ⟨(f, pm), alookup_mem halt, ?_⟩)
        rw [halt] at hq
        simpa using hq
  · exact Or.inr (mem_msPaths.mpr ⟨ent, hmem, hq⟩)

theorem mem_keysOf_filter {α β : Type} {l : List (α × β)} {pred : α × β → Bool} {q : α}
    (h : q ∈ keysOf (l.filter pred)) : q ∈ keysOf l := by
  simp only [keysOf, List.mem_map] at h ⊢
  obtain ⟨pt, hpt, rfl⟩ := h
  exact ⟨pt, (List.mem_filter.mp hpt).1, rfl⟩

theorem msPaths_filter_matches {c : CacheManifest} {m : MatchSet} {q : FsPath}
    (h : q ∈ msPaths (c.filter_matches m)) : q ∈ msPaths m := by
  rw [mem_msPaths] at h ⊢
  obtain ⟨ent, hent, hq⟩ := h
  simp only [CacheManifest.filter_matches, List.mem_map] at hent
  obtain ⟨ent0, hm, rfl⟩ := hent
  exact ⟨ent0, hm, mem_keysOf_filter hq⟩

theorem keysOf_filter_matches (c : CacheManifest) (m : MatchSet) :
    keysOf (c.filter_matches m) = keysOf m := by
  simp [CacheManifest.filter_matches, keysOf, List.map_map, Function.comp]

/-! ### Classification-loop lemmas -/

theorem classify_foldlM_some (path : FsPath) (t : Mtime)
    (fmts : List (FormatterName × Formatter)) : ∀ acc : WalkAcc,
    List.foldlM (classifyStep path (some t)) acc fmts =
      Except.ok (classifyPure path t acc fmts) := by
  induction fmts with
  | nil => intro acc; rfl
  | cons hd tl ih =>
    intro acc
    rw [List.foldlM_cons, classifyPure, List.foldl_cons]
    by_cases h : hd.2.isMatch path
    · rw [show classifyStep path (some t) acc hd = Except.ok
        { acc with matched := acc.matched + 1,
                   found := minsert acc.found hd.2.name path t } from by
          simp [classifyStep, h]]
      rw [except_bind_ok]
      rw [if_pos h]
      exact ih _
    · rw [show classifyStep path (some t) acc hd = Except.ok acc from by
        simp [classifyStep, h]]
      rw [except_bind_ok]
      rw [if_neg h]
      exact ih _

theorem classify_foldlM_none_panics (path : FsPath)
    (fmts : List (FormatterName × Formatter)) : ∀ acc : WalkAcc,
    (∃ f ∈ fmts, f.2.isMatch path = true) →
    List.foldlM (classifyStep path none) acc fmts = Except.error PanicSite.metaMtime := by
  induction fmts with
  | nil =>
    rintro acc ⟨f, hf, -⟩
    cases hf
  | cons hd tl ih =>
    rintro acc ⟨f, hf, hm⟩
    rw [List.foldlM_cons]
    by_cases hhd : hd.2.isMatch path
    · rw [show classifyStep path none acc hd = Except.error PanicSite.metaMtime from by
        simp [classifyStep, hhd]]
      rfl
    · rw [show classifyStep path none acc hd = Except.ok acc from by
        simp [classifyStep, hhd]]
      rw [except_bind_ok]
      refine ih _ ⟨f, ?_, hm⟩
      rcases List.mem_cons.mp hf with rfl | hmem
      · exact absurd hm (by simp [hhd])
      · exact hmem

theorem classify_foldlM_none_ok (path : FsPath) (fmts : List (FormatterName × Formatter)) :
    ∀ acc acc1 : WalkAcc,
    List.foldlM (classifyStep path none) acc fmts = Except.ok acc1 → acc1 = acc := by
  induction fmts with
  | nil =>
    intro acc acc1 h
    cases h
    rfl
  | cons hd tl ih =>
    intro acc acc1 h
    rw [List.foldlM_cons] at h
    by_cases hhd : hd.2.isMatch path
    · rw [show classifyStep path none acc hd = Except.error PanicSite.metaMtime from by
        simp [classifyStep, hhd]] at h
      cases h
    · rw [show classifyStep path none acc hd = Except.ok acc from by
        simp [classifyStep, hhd], except_bind_ok] at h
      exact ih _ _ h

theorem classifyPure_nil (path : FsPath) (t : Mtime) (acc : WalkAcc) :
    classifyPure path t acc [] = acc := rfl

theorem classifyPure_cons (path : FsPath) (t : Mtime) (hd : FormatterName × Formatter)
    (tl : List (FormatterName × Formatter)) (acc : WalkAcc) :
    classifyPure path t acc (hd :: tl) =
      classifyPure path t
        (if hd.2.isMatch path then
          { acc with matched := acc.matched + 1,
                     found := minsert acc.found hd.2.name path t }
         else acc) tl := by
  unfold classifyPure
  rw [List.foldl_cons]

theorem classifyPure_preserves (path : FsPath) (t : Mtime)
    (fmts : List (FormatterName × Formatter)) : ∀ (acc : WalkAcc) (n : FormatterName),
    alookup ((alookup acc.found n).getD []) path = some t →
    alookup ((alookup (classifyPure path t acc fmts).found n).getD []) path = some t := by
  induction fmts with
  | nil => intro acc n h; exact h
  | cons hd tl ih =>
    intro acc n h
    rw [classifyPure_cons]
    by_cases hhd : hd.2.isMatch path
    · rw [if_pos hhd]
      apply ih
      by_cases hn : n = hd.2.name
      · rw [hn]
        simpa using minsert_lookup_self acc.found hd.2.name path t
      · simpa [minsert_lookup_ne_name acc.found hd.2.name n path t hn] using h
    · rw [if_neg hhd]
      exact ih _ _ h

theorem classifyPure_found (path : FsPath) (t : Mtime)
    (fmts : List (FormatterName × Formatter)) : ∀ (acc : WalkAcc) (fmt : Formatter),
    fmt ∈ fmts.map Prod.snd → fmt.isMatch path = true →
    alookup ((alookup (classifyPure path t acc fmts).found fmt.name).getD []) path = some t := by
  induction fmts with
  | nil =>
    intro acc fmt hmem
    simp at hmem
  | cons hd tl ih =>
    intro acc fmt hmem hmatch
    rw [List.map_cons] at hmem
    rw [classifyPure_cons]
    rcases List.mem_cons.mp hmem with rfl | hmem
    · rw [if_pos hmatch]
      apply classifyPure_preserves
      simpa using minsert_lookup_self acc.found hd.2.name path t
    · by_cases hhd : hd.2.isMatch path
      · rw [if_pos hhd]
        exact ih _ _ hmem hmatch
      · rw [if_neg hhd]
        exact ih _ _ hmem hmatch

theorem classifyPure_matched (path : FsPath) (t : Mtime)
    (fmts : List (FormatterName × Formatter)) : ∀ acc : WalkAcc,
    (classifyPure path t acc fmts).matched =
      acc.matched + fmts.countP (fun ent => ent.2.isMatch path) := by
  induction fmts with
  | nil => intro acc; simp [classifyPure_nil]
  | cons hd tl ih =>
    intro acc
    rw [classifyPure_cons, List.countP_cons]
    by_cases hhd : hd.2.isMatch path
    · rw [if_pos hhd, ih]
      simp [hhd]
      omega
    · rw [if_neg hhd, ih]
      simp [hhd]

theorem classifyPure_traversed (path : FsPath) (t : Mtime)
    (fmts : List (FormatterName × Formatter)) : ∀ acc : WalkAcc,
    (classifyPure path t acc fmts).traversed = acc.traversed := by
  induction fmts with
  | nil => intro acc; rfl
  | cons hd tl ih =>
    intro acc
    rw [classifyPure_cons]
    by_cases hhd : hd.2.isMatch path
    · rw [if_pos hhd, ih]
    · rw [if_neg hhd, ih]

theorem classifyPure_logs (path : FsPath) (t : Mtime)
    (fmts : List (FormatterName × Formatter)) : ∀ acc : WalkAcc,
    (classifyPure path t acc fmts).logs = acc.logs := by
  induction fmts with
  | nil => intro acc; rfl
  | cons hd tl ih =>
    intro acc
    rw [classifyPure_cons]
    by_cases hhd : hd.2.isMatch path
    · rw [if_pos hhd, ih]
    · rw [if_neg hhd, ih]

theorem classifyPure_paths (path : FsPath) (t : Mtime)
    (fmts : List (FormatterName × Formatter)) : ∀ (acc : WalkAcc) (q : FsPath),
    q ∈ msPaths (classifyPure path t acc fmts).found → q = path ∨ q ∈ msPaths acc.found := by
  induction fmts with
  | nil => intro acc q h; exact Or.inr h
  | cons hd tl ih =>
    intro acc q h
    rw [classifyPure_cons] at h
    by_cases hhd : hd.2.isMatch path
    · rw [if_pos hhd] at h
      rcases ih _ _ h with heq | hmem
      · exact Or.inl heq
      · rcases msPaths_minsert hmem with heq | hmem2
        · exact Or.inl heq
        · exact Or.inr hmem2
    · rw [if_neg hhd] at h
      exact ih _ _ h

theorem classifyPure_keys (path : FsPath) (t : Mtime)
    (fmts : List (FormatterName × Formatter)) : ∀ (acc : WalkAcc) (g : FormatterName),
    g ∈ keysOf (classifyPure path t acc fmts).found →
    g ∈ keysOf acc.found ∨ ∃ ent ∈ fmts, g = ent.2.name := by
  induction fmts with
  | nil => intro acc g h; exact Or.inl h
  | cons hd tl ih =>
    intro acc g h
    rw [classifyPure_cons] at h
    by_cases hhd : hd.2.isMatch path
    · rw [if_pos hhd] at h
      rcases ih _ _ h with hmem | ⟨ent, hent, hname⟩
      · rcases (mem_keysOf_ainsert _ _ _ _).mp hmem with rfl | hmem2
        · exact Or.inr ⟨hd, List.mem_cons_self _ _, rfl⟩
        · exact Or.inl hmem2
      · exact Or.inr ⟨ent, List.mem_cons_of_mem _ hent, hname⟩
    · rw [if_neg hhd] at h
      rcases ih _ _ h with hmem | ⟨ent, hent, hname⟩
      · exact Or.inl hmem
      · exact Or.inr ⟨ent, List.mem_cons_of_mem _ hent, hname⟩

theorem classifyPure_wf (path : FsPath) (t : Mtime)
    (fmts : List (FormatterName × Formatter)) : ∀ acc : WalkAcc,
    MSWf acc.found → MSWf (classifyPure path t acc fmts).found := by
  induction fmts with
  | nil => intro acc h; exact h
  | cons hd tl ih =>
    intro acc h
    rw [classifyPure_cons]
    by_cases hhd : hd.2.isMatch path
    · rw [if_pos hhd]
      exact ih _ (mswf_minsert _ _ _ h)
    · rw [if_neg hhd]
      exact ih _ h

/-! ### Walk-step and walk-fold lemmas -/

theorem walkStep_file (fmts : List (FormatterName × Formatter)) (acc : WalkAcc)
    (p : FsPath) (t : Mtime) :
    walkStep fmts acc (WalkEvent.ok ⟨p, some false, some t⟩) =
      Except.ok (classifyPure p t { acc with traversed := acc.traversed + 1 } fmts) :=
  classify_foldlM_some p t fmts _

/-- Every successful walk step either leaves the match set untouched or runs
the classification loop on a file entry whose metadata was available. -/
theorem walkStep_ok_cases {fmts : List (FormatterName × Formatter)} {acc : WalkAcc}
    {ev : WalkEvent} {acc1 : WalkAcc} (h : walkStep fmts acc ev = Except.ok acc1) :
    acc1.found = acc.found ∨ ∃ p t, ev = WalkEvent.ok ⟨p, some false, some t⟩ ∧
      acc1 = classifyPure p t { acc with traversed := acc.traversed + 1 } fmts := by
  cases ev with
  | err msg =>
    have h2 : Except.ok (ε := PanicSite)
        { acc with logs := acc.logs ++ [LogEvent.warnTraversal msg] } = Except.ok acc1 := h
    cases h2
    exact Or.inl rfl
  | ok e =>
    obtain ⟨p, ft, md⟩ := e
    cases ft with
    | none =>
      have h2 : Except.ok (ε := PanicSite)
          { acc with logs := acc.logs ++ [LogEvent.warnNoFileType p] } = Except.ok acc1 := h
      cases h2
      exact Or.inl rfl
    | some isDir =>
      cases isDir with
      | true =>
        have h2 : Except.ok (ε := PanicSite) acc = Except.ok acc1 := h
        cases h2
        exact Or.inl rfl
      | false =>
        cases md with
        | some t =>
          rw [walkStep_file] at h
          cases h
          exact Or.inr ⟨p, t, rfl, rfl⟩
        | none =>
          have h2 : List.foldlM (classifyStep p none)
              { acc with traversed := acc.traversed + 1 } fmts = Except.ok acc1 := h
          rw [classify_foldlM_none_ok p fmts _ _ h2]
          exact Or.inl rfl

theorem walk_fold_paths (fmts : List (FormatterName × Formatter)) :
    ∀ (events : List WalkEvent) (acc acc2 : WalkAcc),
    List.foldlM (walkStep fmts) acc events = Except.ok acc2 →
    ∀ q, q ∈ msPaths acc2.found →
      q ∈ msPaths acc.found ∨ ∃ e : DirEntry, WalkEvent.ok e ∈ events ∧ e.path = q := by
  intro events
  induction events with
  | nil =>
    intro acc acc2 h q hq
    cases h
    exact Or.inl hq
  | cons ev evs ih =>
    intro acc acc2 h q hq
    rw [List.foldlM_cons] at h
    cases hstep : walkStep fmts acc ev with
    | error s =>
      rw [hstep, except_bind_error] at h
      cases h
    | ok acc1 =>
      rw [hstep, except_bind_ok] at h
      rcases ih _ _ h q hq with hmem | ⟨e, he, hp⟩
      · rcases walkStep_ok_cases hstep with hfound | ⟨p, t, rfl, rfl⟩
        · rw [hfound] at hmem
          exact Or.inl hmem
        · rcases classifyPure_paths p t fmts _ q hmem with rfl | hmem0
          · exact Or.inr ⟨⟨q, some false, some t⟩, List.mem_cons_self _ _, rfl⟩
          · exact Or.inl hmem0
      · exact Or.inr ⟨e, List.mem_cons_of_mem _ he, hp⟩

theorem walk_fold_keys (fmts : List (FormatterName × Formatter)) :
    ∀ (events : List WalkEvent) (acc acc2 : WalkAcc),
    List.foldlM (walkStep fmts) acc events = Except.ok acc2 →
    ∀ g, g ∈ keysOf acc2.found →
      g ∈ keysOf acc.found ∨ ∃ ent ∈ fmts, g = ent.2.name := by
  intro events
  induction events with
  | nil =>
    intro acc acc2 h g hg
    cases h
    exact Or.inl hg
  | cons ev evs ih =>
    intro acc acc2 h g hg
    rw [List.foldlM_cons] at h
    cases hstep : walkStep fmts acc ev with
    | error s =>
      rw [hstep, except_bind_error] at h
      cases h
    | ok acc1 =>
      rw [hstep, except_bind_ok] at h
      rcases ih _ _ h g hg with hmem | hout
      · rcases walkStep_ok_cases hstep with hfound | ⟨p, t, rfl, rfl⟩
        · rw [hfound] at hmem
          exact Or.inl hmem
        · exact classifyPure_keys p t fmts
            { acc with traversed := acc.traversed + 1 } g hmem
      · exact Or.inr hout

theorem walk_fold_wf (fmts : List (FormatterName × Formatter)) :
    ∀ (events : List WalkEvent) (acc acc2 : WalkAcc),
    List.foldlM (walkStep fmts) acc events = Except.ok acc2 →
    MSWf acc.found → MSWf acc2.found := by
  intro events
  induction events with
  | nil =>
    intro acc acc2 h hwf
    cases h
    exact hwf
  | cons ev evs ih =>
    intro acc acc2 h hwf
    rw [List.foldlM_cons] at h
    cases hstep : walkStep fmts acc ev with
    | error s =>
      rw [hstep, except_bind_error] at h
      cases h
    | ok acc1 =>
      rw [hstep, except_bind_ok] at h
      refine ih _ _ h ?_
      rcases walkStep_ok_cases hstep with hfound | ⟨p, t, rfl, rfl⟩
      · rw [hfound]
        exact hwf
      · exact classifyPure_wf p t fmts _ hwf

theorem walkClassify_paths {fmts : List (FormatterName × Formatter)}
    {events : List WalkEvent} {acc2 : WalkAcc}
    (h : walkClassify fmts events = Except.ok acc2) :
    ∀ q, q ∈ msPaths acc2.found → ∃ e : DirEntry, WalkEvent.ok e ∈ events ∧ e.path = q := by
  intro q hq
  rcases walk_fold_paths fmts events _ _ h q hq with hmem | hout
  · simp [msPaths, keysOf] at hmem
  · exact hout

theorem walkClassify_keys {fmts : List (FormatterName × Formatter)}
    {events : List WalkEvent} {acc2 : WalkAcc}
    (h : walkClassify fmts events = Except.ok acc2) :
    ∀ g, g ∈ keysOf acc2.found → ∃ ent ∈ fmts, g = ent.2.name := by
  intro g hg
  rcases walk_fold_keys fmts events _ _ h g hg with hmem | hout
  · simp [keysOf] at hmem
  · exact hout

theorem walkClassify_wf {fmts : List (FormatterName × Formatter)}
    {events : List WalkEvent} {acc2 : WalkAcc}
    (h : walkClassify fmts events = Except.ok acc2) : MSWf acc2.found := by
  refine walk_fold_wf fmts events _ _ h ?_
  exact ⟨by simp [NodupKeys, keysOf], by intro ent hent; cases hent⟩

/-! ### mapM lemmas over Except -/

theorem mapM_ok_mem {α β ε : Type} (f : α → Except ε β) :
    ∀ (l : List α) (res : List β), l.mapM f = Except.ok res →
      ∀ a ∈ l, ∃ b ∈ res, f a = Except.ok b := by
  intro l
  induction l with
  | nil =>
    intro res h a ha
    cases ha
  | cons hd tl ih =>
    intro res h a ha
    rw [List.mapM_cons] at h
    cases hhd : f hd with
    | error e =>
      rw [hhd, except_bind_error] at h
      cases h
    | ok b =>
      rw [hhd, except_bind_ok] at h
      cases htl : tl.mapM f with
      | error e =>
        rw [htl, except_bind_error] at h
        cases h
      | ok bs =>
        rw [htl, except_bind_ok] at h
        cases h
        rcases List.mem_cons.mp ha with rfl | hmem
        · exact ⟨b, List.mem_cons_self _ _, hhd⟩
        · obtain ⟨b2, hb2, hf⟩ := ih bs htl a hmem
          exact ⟨b2, List.mem_cons_of_mem _ hb2, hf⟩

theorem mapM_ok_mem_rev {α β ε : Type} (f : α → Except ε β) :
    ∀ (l : List α) (res : List β), l.mapM f = Except.ok res →
      ∀ b ∈ res, ∃ a ∈ l, f a = Except.ok b := by
  intro l
  induction l with
  | nil =>
    intro res h b hb
    cases h
    cases hb
  | cons hd tl ih =>
    intro res h b hb
    rw [List.mapM_cons] at h
    cases hhd : f hd with
    | error e =>
      rw [hhd, except_bind_error] at h
      cases h
    | ok b0 =>
      rw [hhd, except_bind_ok] at h
      cases htl : tl.mapM f with
      | error e =>
        rw [htl, except_bind_error] at h
        cases h
      | ok bs =>
        rw [htl, except_bind_ok] at h
        cases h
        rcases List.mem_cons.mp hb with rfl | hmem
        · exact ⟨hd, List.mem_cons_self _ _, hhd⟩
        · obtain ⟨a, ha, hf⟩ := ih bs htl b hmem
          exact ⟨a, List.mem_cons_of_mem _ ha, hf⟩

theorem mapM_ok_of_forall {α β ε : Type} (f : α → Except ε β) :
    ∀ l : List α, (∀ a ∈ l, ∃ b, f a = Except.ok b) →
      ∃ res, l.mapM f = Except.ok res := by
  intro l
  induction l with
  | nil =>
    intro _
    exact ⟨[], rfl⟩
  | cons hd tl ih =>
    intro h
    obtain ⟨b, hb⟩ := h hd (List.mem_cons_self _ _)
    obtain ⟨bs, hbs⟩ := ih (fun a ha => h a (List.mem_cons_of_mem _ ha))
    refine ⟨b :: bs, ?_⟩
    rw [List.mapM_cons, hb, except_bind_ok, hbs, except_bind_ok]
    rfl

theorem mapM_error_mem {α β ε : Type} (f : α → Except ε β) :
    ∀ (l : List α) (e : ε), l.mapM f = Except.error e →
      ∃ a ∈ l, f a = Except.error e := by
  intro l
  induction l with
  | nil =>
    intro e h
    cases h
  | cons hd tl ih =>
    intro e h
    rw [List.mapM_cons] at h
    cases hhd : f hd with
    | error e0 =>
      rw [hhd, except_bind_error] at h
      cases h
      exact ⟨hd, List.mem_cons_self _ _, hhd⟩
    | ok b =>
      rw [hhd, except_bind_ok] at h
      cases htl : tl.mapM f with
      | error e0 =>
        rw [htl, except_bind_error] at h
        cases h
        obtain ⟨a, ha, hf⟩ := ih _ htl
        exact ⟨a, List.mem_cons_of_mem _ ha, hf⟩
      | ok bs =>
        rw [htl, except_bind_ok] at h
        cases h

theorem mapM_ok_shape {α β γ ε : Type} (f : α → Except ε β) (g : β → γ) (g0 : α → γ)
    (hpt : ∀ a b, f a = Except.ok b → g b = g0 a) :
    ∀ (l : List α) (res : List β), l.mapM f = Except.ok res →
      res.map g = l.map g0 := by
  intro l
  induction l with
  | nil =>
    intro res h
    cases h
    rfl
  | cons hd tl ih =>
    intro res h
    rw [List.mapM_cons] at h
    cases hhd : f hd with
    | error e =>
      rw [hhd, except_bind_error] at h
      cases h
    | ok b =>
      rw [hhd, except_bind_ok] at h
      cases htl : tl.mapM f with
      | error e =>
        rw [htl, except_bind_error] at h
        cases h
      | ok bs =>
        rw [htl, except_bind_ok] at h
        cases h
        rw [List.map_cons, List.map_cons, hpt hd b hhd, ih bs htl]

/-! ### Scheduler lemmas -/

theorem readPost_ok {post : FormatterName → FsPath → Option Mtime} {f : FormatterName}
    {p : FsPath} {pt : FsPath × Mtime} (h : readPost post f p = Except.ok pt) :
    pt.1 = p ∧ post f p = some pt.2 := by
  unfold readPost at h
  cases hp : post f p with
  | none =>
    rw [hp] at h
    cases h
  | some t =>
    rw [hp] at h
    cases h
    exact ⟨rfl, rfl⟩

theorem readPost_error_site {post : FormatterName → FsPath → Option Mtime} {f : FormatterName}
    {p : FsPath} {s : PanicSite} (h : readPost post f p = Except.error s) :
    s = PanicSite.postMtime := by
  unfold readPost at h
  cases hp : post f p with
  | none =>
    rw [hp] at h
    cases h
    rfl
  | some t =>
    rw [hp] at h
    cases h

theorem readPost_mapM_keys (post : FormatterName → FsPath → Option Mtime) (f : FormatterName)
    (paths : List FsPath) (l : List (FsPath × Mtime))
    (h : paths.mapM (readPost post f) = Except.ok l) : keysOf l = paths := by
  have := mapM_ok_shape (readPost post f) Prod.fst id
    (fun a b hab => (readPost_ok hab).1) paths l h
  simpa [keysOf] using this

theorem readPost_mapM_post (post : FormatterName → FsPath → Option Mtime) (f : FormatterName)
    (paths : List FsPath) (l : List (FsPath × Mtime))
    (h : paths.mapM (readPost post f) = Except.ok l) :
    ∀ pt ∈ l, post f pt.1 = some pt.2 := by
  intro pt hpt
  obtain ⟨p, -, hf⟩ := mapM_ok_mem_rev (readPost post f) paths l h pt hpt
  obtain ⟨h1, h2⟩ := readPost_ok hf
  rw [h1]
  exact h2

theorem schedEntry_empty {fmts : List (FormatterName × Formatter)}
    {oc : FormatterName → List FsPath → Bool} {post : FormatterName → FsPath → Option Mtime}
    {f : FormatterName} {pm : List (FsPath × Mtime)} {fmt : Formatter}
    (hlk : alookup fmts f = some fmt) (hemp : (keysOf pm).isEmpty = true) :
    schedEntry fmts oc post (f, pm) = Except.ok (f, pm) := by
  unfold schedEntry
  rw [hlk]
  simp only [hemp, if_true]

theorem schedEntry_fail {fmts : List (FormatterName × Formatter)}
    {oc : FormatterName → List FsPath → Bool} {post : FormatterName → FsPath → Option Mtime}
    {f : FormatterName} {pm : List (FsPath × Mtime)} {fmt : Formatter}
    (hlk : alookup fmts f = some fmt) (hemp : (keysOf pm).isEmpty = false)
    (hoc : oc f (keysOf pm) = false) :
    schedEntry fmts oc post (f, pm) = Except.ok (f, pm) := by
  unfold schedEntry
  rw [hlk]
  simp only [hemp, hoc, Bool.false_eq_true, if_false]

theorem schedEntry_success {fmts : List (FormatterName × Formatter)}
    {oc : FormatterName → List FsPath → Bool} {post : FormatterName → FsPath → Option Mtime}
    {f : FormatterName} {pm : List (FsPath × Mtime)} {fmt : Formatter}
    {l : List (FsPath × Mtime)}
    (hlk : alookup fmts f = some fmt) (hemp : (keysOf pm).isEmpty = false)
    (hoc : oc f (keysOf pm) = true)
    (hm : (keysOf pm).mapM (readPost post f) = Except.ok l) :
    schedEntry fmts oc post (f, pm) = Except.ok (f, l) := by
  unfold schedEntry
  rw [hlk]
  simp only [hemp, hoc, Bool.false_eq_true, if_false, if_true]
  rw [hm, except_map_ok]

theorem schedEntry_ok_keys {fmts : List (FormatterName × Formatter)}
    {oc : FormatterName → List FsPath → Bool} {post : FormatterName → FsPath → Option Mtime}
    {ent res : FormatterName × List (FsPath × Mtime)}
    (h : schedEntry fmts oc post ent = Except.ok res) :
    res.1 = ent.1 ∧ keysOf res.2 = keysOf ent.2 := by
  unfold schedEntry at h
  cases hlk : alookup fmts ent.1 with
  | none =>
    rw [hlk] at h
    cases h
  | some fmt =>
    rw [hlk] at h
    by_cases hemp : (keysOf ent.2).isEmpty
    · simp only [hemp, if_true] at h
      cases h
      exact ⟨rfl, rfl⟩
    · simp only [eq_false_of_ne_true hemp, Bool.false_eq_true, if_false] at h
      by_cases hoc : oc ent.1 (keysOf ent.2)
      · simp only [hoc, if_true] at h
        cases hm : (keysOf ent.2).mapM (readPost post ent.1) with
        | error e =>
          rw [hm, except_map_error] at h
          cases h
        | ok l =>
          rw [hm, except_map_ok] at h
          cases h
          exact ⟨rfl, readPost_mapM_keys post ent.1 _ _ hm⟩
      · simp only [eq_false_of_ne_true hoc, Bool.false_eq_true, if_false] at h
        cases h
        exact ⟨rfl, rfl⟩

theorem schedEntry_error_site {fmts : List (FormatterName × Formatter)}
    {oc : FormatterName → List FsPath → Bool} {post : FormatterName → FsPath → Option Mtime}
    {ent : FormatterName × List (FsPath × Mtime)} {s : PanicSite}
    (h : schedEntry fmts oc post ent = Except.error s) :
    (s = PanicSite.fmtLookup ∧ alookup fmts ent.1 = none) ∨ s = PanicSite.postMtime := by
  unfold schedEntry at h
  cases hlk : alookup fmts ent.1 with
  | none =>
    rw [hlk] at h
    cases h
    exact Or.inl ⟨rfl, rfl⟩
  | some fmt =>
    rw [hlk] at h
    by_cases hemp : (keysOf ent.2).isEmpty
    · simp only [hemp, if_true] at h
      cases h
    · simp only [eq_false_of_ne_true hemp, Bool.false_eq_true, if_false] at h
      by_cases hoc : oc ent.1 (keysOf ent.2)
      · simp only [hoc, if_true] at h
        cases hm : (keysOf ent.2).mapM (readPost post ent.1) with
        | error e =>
          rw [hm, except_map_error] at h
          cases h
          obtain ⟨p, -, hp⟩ := mapM_error_mem (readPost post ent.1) _ _ hm
          exact Or.inr (readPost_error_site hp)
        | ok l =>
          rw [hm, except_map_ok] at h
          cases h
      · simp only [eq_false_of_ne_true hoc, Bool.false_eq_true, if_false] at h
        cases h

theorem schedEntry_none {fmts : List (FormatterName × Formatter)}
    {oc : FormatterName → List FsPath → Bool} {post : FormatterName → FsPath → Option Mtime}
    {ent : FormatterName × List (FsPath × Mtime)} (hlk : alookup fmts ent.1 = none) :
    schedEntry fmts oc post ent = Except.error PanicSite.fmtLookup := by
  unfold schedEntry
  rw [hlk]

theorem schedEntry_success_eq {fmts : List (FormatterName × Formatter)}
    {oc : FormatterName → List FsPath → Bool} {post : FormatterName → FsPath → Option Mtime}
    {f : FormatterName} {pm : List (FsPath × Mtime)} {fmt : Formatter}
    (hlk : alookup fmts f = some fmt) (hemp : (keysOf pm).isEmpty = false)
    (hoc : oc f (keysOf pm) = true) :
    schedEntry fmts oc post (f, pm) =
      ((keysOf pm).mapM (readPost post f)).map (fun l => (f, l)) := by
  unfold schedEntry
  rw [hlk]
  simp only [hemp, Bool.false_eq_true, if_false, hoc, if_true]

theorem schedule_shape {fmts : List (FormatterName × Formatter)}
    {oc : FormatterName → List FsPath → Bool} {post : FormatterName → FsPath → Option Mtime}
    {m newM : MatchSet} (h : schedule fmts oc post m = Except.ok newM) :
    newM.map (fun ent => (ent.1, keysOf ent.2)) = m.map (fun ent => (ent.1, keysOf ent.2)) := by
  refine mapM_ok_shape _ _ _ ?_ m newM h
  intro a b hab
  obtain ⟨h1, h2⟩ := schedEntry_ok_keys hab
  rw [h1, h2]

theorem shape_keys {m newM : MatchSet}
    (hshape : newM.map (fun ent => (ent.1, keysOf ent.2)) =
      m.map (fun ent => (ent.1, keysOf ent.2))) :
    keysOf newM = keysOf m := by
  have h2 := congrArg (List.map Prod.fst) hshape
  simpa [keysOf, List.map_map, Function.comp] using h2

/-! ### Diff-phase lemmas -/

theorem except_map_ok_inv {ε α β : Type} {e : Except ε α} {g : α → β} {r : β}
    (h : e.map g = Except.ok r) : ∃ a, e = Except.ok a ∧ r = g a := by
  cases e with
  | error err =>
    rw [except_map_error] at h
    cases h
  | ok a =>
    rw [except_map_ok] at h
    cases h
    exact ⟨a, rfl, rfl⟩

theorem mem_keysOf_exists {α β : Type} {l : List (α × β)} {q : α} (h : q ∈ keysOf l) :
    ∃ b, (q, b) ∈ l := by
  simp only [keysOf, List.mem_map] at h
  obtain ⟨pt, hpt, rfl⟩ := h
  exact ⟨pt.2, by simpa using hpt⟩

theorem diffList_cons (old_paths : List (FsPath × Mtime)) (pt : FsPath × Mtime)
    (tl : List (FsPath × Mtime)) :
    diffList old_paths (pt :: tl) =
      (if alookup old_paths pt.1 = some pt.2 then [] else [pt.1]) ++ diffList old_paths tl := by
  unfold diffList
  rw [List.filter_cons]
  by_cases hc : alookup old_paths pt.1 = some pt.2
  · simp [hc]
  · simp [hc]

theorem diffStep_some {old_paths : List (FsPath × Mtime)} {acc : List FsPath}
    {pt : FsPath × Mtime} {ov : Mtime} (h : alookup old_paths pt.1 = some ov) :
    diffStep old_paths acc pt = Except.ok (if ov = pt.2 then acc else acc ++ [pt.1]) := by
  unfold diffStep
  rw [h]

theorem diffEntry_some {oldM : MatchSet} {ent : FormatterName × List (FsPath × Mtime)}
    {old_paths : List (FsPath × Mtime)} (h : alookup oldM ent.1 = some old_paths) :
    diffEntry oldM ent =
      (ent.2.foldlM (diffStep old_paths) []).map (fun l => (ent.1, l)) := by
  unfold diffEntry
  rw [h]

theorem diffEntry_none {oldM : MatchSet} {ent : FormatterName × List (FsPath × Mtime)}
    (h : alookup oldM ent.1 = none) :
    diffEntry oldM ent = Except.error PanicSite.diffName := by
  unfold diffEntry
  rw [h]

theorem diff_foldlM_ok (old_paths : List (FsPath × Mtime)) :
    ∀ (new_paths : List (FsPath × Mtime)) (acc : List FsPath),
    (∀ pt ∈ new_paths, (alookup old_paths pt.1).isSome = true) →
    List.foldlM (diffStep old_paths) acc new_paths =
      Except.ok (acc ++ diffList old_paths new_paths) := by
  intro new_paths
  induction new_paths with
  | nil =>
    intro acc h
    simp [diffList]
    rfl
  | cons pt tl ih =>
    intro acc h
    rw [List.foldlM_cons]
    have hsome := h pt (List.mem_cons_self _ _)
    cases hlk : alookup old_paths pt.1 with
    | none =>
      rw [hlk] at hsome
      cases hsome
    | some ov =>
      rw [diffStep_some hlk, except_bind_ok, diffList_cons, hlk]
      by_cases hv : ov = pt.2
      · rw [if_pos hv, if_pos (by rw [hv])]
        rw [ih acc (fun pt2 h2 => h pt2 (List.mem_cons_of_mem _ h2))]
        simp
      · rw [if_neg hv, if_neg (by intro hc; exact hv (Option.some.inj hc.symm).symm)]
        rw [ih (acc ++ [pt.1]) (fun pt2 h2 => h pt2 (List.mem_cons_of_mem _ h2))]
        simp

theorem diffEntry_ok {oldM : MatchSet} {ent : FormatterName × List (FsPath × Mtime)}
    {old_paths : List (FsPath × Mtime)}
    (hol : alookup oldM ent.1 = some old_paths)
    (hkeys : ∀ pt ∈ ent.2, (alookup old_paths pt.1).isSome = true) :
    diffEntry oldM ent = Except.ok (ent.1, diffList old_paths ent.2) := by
  rw [diffEntry_some hol, diff_foldlM_ok old_paths ent.2 [] hkeys, except_map_ok]
  simp

theorem diffEntry_ok_fst {oldM : MatchSet} {ent : FormatterName × List (FsPath × Mtime)}
    {r : FormatterName × List FsPath} (h : diffEntry oldM ent = Except.ok r) :
    r.1 = ent.1 := by
  cases hol : alookup oldM ent.1 with
  | none =>
    rw [diffEntry_none hol] at h
    cases h
  | some old_paths =>
    rw [diffEntry_some hol] at h
    obtain ⟨l, -, rfl⟩ := except_map_ok_inv h
    rfl

theorem shape_lookup {oldM newM : MatchSet} (hnd : NodupKeys oldM)
    (hshape : newM.map (fun ent => (ent.1, keysOf ent.2)) =
      oldM.map (fun ent => (ent.1, keysOf ent.2))) :
    ∀ ent ∈ newM, ∃ old_paths, alookup oldM ent.1 = some old_paths ∧
      keysOf old_paths = keysOf ent.2 := by
  intro ent hent
  have hmem : (ent.1, keysOf ent.2) ∈ newM.map (fun ent => (ent.1, keysOf ent.2)) :=
    List.mem_map_of_mem _ hent
  rw [hshape] at hmem
  obtain ⟨ent0, hent0, heq⟩ := List.mem_map.mp hmem
  simp only [Prod.mk.injEq] at heq
  obtain ⟨h1, h2⟩ := heq
  refine ⟨ent0.2, ?_, h2⟩
  rw [← h1]
  exact alookup_of_mem_nodup hnd (by simpa using hent0)

theorem diffPhase_ok {oldM newM : MatchSet} (hnd : NodupKeys oldM)
    (hshape : newM.map (fun ent => (ent.1, keysOf ent.2)) =
      oldM.map (fun ent => (ent.1, keysOf ent.2))) :
    ∃ changed, diffPhase oldM newM = Except.ok changed := by
  refine mapM_ok_of_forall _ newM ?_
  intro ent hent
  obtain ⟨old_paths, hol, hkeys⟩ := shape_lookup hnd hshape ent hent
  refine ⟨(ent.1, diffList old_paths ent.2), diffEntry_ok hol ?_⟩
  intro pt hpt
  rw [alookup_isSome_iff, hkeys]
  exact mem_keysOf_of_mem (show (pt.1, pt.2) ∈ ent.2 by simpa using hpt)

theorem diffPhase_keys {oldM newM : MatchSet} {changed : List (FormatterName × List FsPath)}
    (h : diffPhase oldM newM = Except.ok changed) :
    keysOf changed = keysOf newM :=
  mapM_ok_shape _ _ _ (fun _ _ hab => diffEntry_ok_fst hab) newM changed h

/-! ### add_results lemmas -/

theorem mergeInto_cons (inner : List (FsPath × Mtime)) (pt : FsPath × Mtime)
    (tl : List (FsPath × Mtime)) :
    mergeInto inner (pt :: tl) = mergeInto (ainsert inner pt.1 pt.2) tl := rfl

theorem mergeInto_lookup_not_mem (p : FsPath) :
    ∀ (vs inner : List (FsPath × Mtime)),
    p ∉ keysOf vs → alookup (mergeInto inner vs) p = alookup inner p := by
  intro vs
  induction vs with
  | nil =>
    intro inner _
    rfl
  | cons pt tl ih =>
    intro inner h
    rw [mergeInto_cons]
    have hp : p ≠ pt.1 := by
      intro hc
      exact h (by rw [hc]; exact mem_keysOf_of_mem (show (pt.1, pt.2) ∈ pt :: tl by simp))
    rw [ih _ (fun hc => h (List.mem_cons_of_mem _ hc))]
    exact alookup_ainsert_ne _ _ _ _ hp

theorem mergeInto_lookup_mem (p : FsPath) (t : Mtime) :
    ∀ (vs inner : List (FsPath × Mtime)),
    NodupKeys vs → (p, t) ∈ vs → alookup (mergeInto inner vs) p = some t := by
  intro vs
  induction vs with
  | nil =>
    intro inner _ h
    cases h
  | cons pt tl ih =>
    intro inner hnd hmem
    rw [mergeInto_cons]
    rcases List.mem_cons.mp hmem with heq | hmem2
    · have hp : p ∉ keysOf tl := by
        rw [← heq] at hnd
        exact (List.nodup_cons.mp hnd).1
      rw [mergeInto_lookup_not_mem p tl _ hp, ← heq]
      exact alookup_ainsert_self inner p t
    · exact ih _ (List.nodup_cons.mp hnd).2 hmem2

theorem addResults_fold_not_mem (f : FormatterName) :
    ∀ (new : MatchSet) (es : List (FormatterName × List (FsPath × Mtime))),
    f ∉ keysOf new → alookup (new.foldl addResultsStep es) f = alookup es f := by
  intro new
  induction new with
  | nil =>
    intro es _
    rfl
  | cons ent tl ih =>
    intro es h
    have hf : f ≠ ent.1 := by
      intro hc
      exact h (by rw [hc]; exact mem_keysOf_of_mem (show (ent.1, ent.2) ∈ ent :: tl by simp))
    rw [List.foldl_cons, ih _ (fun hc => h (List.mem_cons_of_mem _ hc))]
    exact alookup_ainsert_ne _ _ _ _ hf

theorem addResults_fold_mem (f : FormatterName) (vs : List (FsPath × Mtime)) :
    ∀ (new : MatchSet) (es : List (FormatterName × List (FsPath × Mtime))),
    NodupKeys new → (f, vs) ∈ new →
    alookup (new.foldl addResultsStep es) f =
      some (mergeInto ((alookup es f).getD []) vs) := by
  intro new
  induction new with
  | nil =>
    intro es _ h
    cases h
  | cons ent tl ih =>
    intro es hnd hmem
    rw [List.foldl_cons]
    rcases List.mem_cons.mp hmem with heq | hmem2
    · have hf : f ∉ keysOf tl := by
        rw [← heq] at hnd
        exact (List.nodup_cons.mp hnd).1
      rw [addResults_fold_not_mem f tl _ hf, ← heq]
      exact alookup_ainsert_self es f (mergeInto ((alookup es f).getD []) vs)
    · have hf : f ≠ ent.1 := by
        intro hc
        refine (List.nodup_cons.mp hnd).1 ?_
        rw [← hc]
        exact mem_keysOf_of_mem hmem2
      rw [ih _ (List.nodup_cons.mp hnd).2 hmem2]
      unfold addResultsStep
      rw [alookup_ainsert_ne _ _ _ _ hf]

theorem add_results_lookup {cache : CacheManifest} {newM : MatchSet} {f : FormatterName}
    {vs : List (FsPath × Mtime)} (hnd : NodupKeys newM) (hf : (f, vs) ∈ newM)
    (hndv : NodupKeys vs) (p : FsPath) (t : Mtime) (hpt : (p, t) ∈ vs) :
    alookup ((alookup (CacheManifest.add_results cache newM).entries f).getD []) p = some t := by
  unfold CacheManifest.add_results
  rw [show (CacheManifest.mk cache.configs (newM.foldl addResultsStep cache.entries)).entries
      = newM.foldl addResultsStep cache.entries from rfl]
  rw [addResults_fold_mem f vs newM cache.entries hnd hf]
  simp only [Option.getD_some]
  exact mergeInto_lookup_mem p t vs _ hndv hpt

/-! ### Panic-site classification and formatter-table lemmas -/

theorem classifyStep_error_site {path : FsPath} {md : Option Mtime} {acc : WalkAcc}
    {ent : FormatterName × Formatter} {s : PanicSite}
    (h : classifyStep path md acc ent = Except.error s) : s = PanicSite.metaMtime := by
  unfold classifyStep at h
  by_cases hm : ent.2.isMatch path
  · rw [if_pos hm] at h
    cases md with
    | some t => cases h
    | none =>
      cases h
      rfl
  · rw [if_neg hm] at h
    cases h

theorem classify_foldlM_error_site (path : FsPath) (md : Option Mtime)
    (fmts : List (FormatterName × Formatter)) : ∀ (acc : WalkAcc) (s : PanicSite),
    List.foldlM (classifyStep path md) acc fmts = Except.error s →
    s = PanicSite.metaMtime := by
  induction fmts with
  | nil =>
    intro acc s h
    cases h
  | cons hd tl ih =>
    intro acc s h
    rw [List.foldlM_cons] at h
    cases hstep : classifyStep path md acc hd with
    | error e =>
      rw [hstep, except_bind_error] at h
      cases h
      exact classifyStep_error_site hstep
    | ok acc1 =>
      rw [hstep, except_bind_ok] at h
      exact ih _ _ h

theorem walkStep_error_site {fmts : List (FormatterName × Formatter)} {acc : WalkAcc}
    {ev : WalkEvent} {s : PanicSite} (h : walkStep fmts acc ev = Except.error s) :
    s = PanicSite.metaMtime := by
  cases ev with
  | err msg => cases h
  | ok e =>
    obtain ⟨p, ft, md⟩ := e
    cases ft with
    | none => cases h
    | some isDir =>
      cases isDir with
      | true => cases h
      | false =>
        exact classify_foldlM_error_site p md fmts _ s h

theorem walk_fold_error_site (fmts : List (FormatterName × Formatter)) :
    ∀ (events : List WalkEvent) (acc : WalkAcc) (s : PanicSite),
    List.foldlM (walkStep fmts) acc events = Except.error s →
    s = PanicSite.metaMtime := by
  intro events
  induction events with
  | nil =>
    intro acc s h
    cases h
  | cons ev evs ih =>
    intro acc s h
    rw [List.foldlM_cons] at h
    cases hstep : walkStep fmts acc ev with
    | error e =>
      rw [hstep, except_bind_error] at h
      cases h
      exact walkStep_error_site hstep
    | ok acc1 =>
      rw [hstep, except_bind_ok] at h
      exact ih _ _ h

theorem loadStep_names {tree_root : FsPath}
    {mk : FsPath → FormatterName → FmtConfig → Except String Formatter}
    {acc : LoadOut} {ent0 : FormatterName × FmtConfig}
    (h : ∀ ent ∈ acc.formatters, ent.2.name = ent.1) :
    ∀ ent ∈ (loadStep tree_root mk acc ent0).formatters, ent.2.name = ent.1 := by
  intro ent hent
  unfold loadStep at hent
  cases hmk : mk tree_root ent0.1 ent0.2 with
  | ok fmt =>
    rw [hmk] at hent
    rcases mem_ainsert hent with heq | hmem
    · subst heq
      rfl
    · exact h _ hmem
  | error e =>
    rw [hmk] at hent
    exact h _ hent

theorem loadFormatters_names (tree_root : FsPath)
    (mk : FsPath → FormatterName → FmtConfig → Except String Formatter)
    (cfg : List (FormatterName × FmtConfig)) :
    ∀ ent ∈ (loadFormatters tree_root mk cfg).formatters, ent.2.name = ent.1 := by
  unfold loadFormatters
  have hgen : ∀ (l : List (FormatterName × FmtConfig)) (acc : LoadOut),
      (∀ ent ∈ acc.formatters, ent.2.name = ent.1) →
      ∀ ent ∈ (l.foldl (loadStep tree_root mk) acc).formatters, ent.2.name = ent.1 := by
    intro l
    induction l with
    | nil => intro acc h; exact h
    | cons hd tl ih =>
      intro acc h
      rw [List.foldl_cons]
      exact ih _ (loadStep_names h)
  exact hgen cfg ⟨[], []⟩ (by intro ent hent; cases hent)

/-! ### Stage lemmas -/

theorem runReport_res_ne_assert (env : Env) (logs0 : List LogEvent) (acc : WalkAcc)
    (filtered newM : MatchSet) (cache2 : CacheManifest) :
    (runReport env logs0 acc filtered newM cache2).res ≠ Except.error RunErr.assertFailed := by
  unfold runReport
  split
  · simp
  · split <;> simp

theorem runSched_res_ne_assert (env : Env) (logs0 : List LogEvent)
    (fmts : List (FormatterName × Formatter)) (acc : WalkAcc) (cache1 : CacheManifest) :
    (runSched env logs0 fmts acc cache1).res ≠ Except.error RunErr.assertFailed := by
  simp only [runSched]
  cases h : schedule fmts env.fmtOutcome env.postMtime (cache1.filter_matches acc.found) with
  | error site => simp [RunTrace.base]
  | ok newM => exact runReport_res_ne_assert _ _ _ _ _ _

theorem runConfig_res_ne_assert (env : Env) (rlogs : List LogEvent) (kept : List FsPath)
    (cfg : List (FormatterName × FmtConfig)) :
    (runConfig env rlogs kept cfg).res ≠ Except.error RunErr.assertFailed := by
  simp only [runConfig]
  cases h : walkClassify (loadFormatters env.tree_root env.mkFormatter cfg).formatters
      (walker kept env.ignored env.fsEvents) with
  | error site => simp [RunTrace.base]
  | ok acc => exact runSched_res_ne_assert _ _ _ _ _

theorem runResolved_res_ne_assert (env : Env) (r : ResolveOut) :
    (runResolved env r).res ≠ Except.error RunErr.assertFailed := by
  unfold runResolved
  split
  · simp [RunTrace.base]
  · cases h : env.config with
    | error msg => simp [h, RunTrace.base]
    | ok cfg => simp only [h]; exact runConfig_res_ne_assert _ _ _ _

theorem runReport_no_panic3 (env : Env) (logs0 : List LogEvent) (acc : WalkAcc)
    (filtered newM : MatchSet) (cache2 : CacheManifest)
    (hnd : NodupKeys filtered)
    (hshape : newM.map (fun ent => (ent.1, keysOf ent.2)) =
      filtered.map (fun ent => (ent.1, keysOf ent.2))) :
    (runReport env logs0 acc filtered newM cache2).res
        ≠ Except.error (RunErr.panic PanicSite.fmtLookup) ∧
    (runReport env logs0 acc filtered newM cache2).res
        ≠ Except.error (RunErr.panic PanicSite.diffName) ∧
    (runReport env logs0 acc filtered newM cache2).res
        ≠ Except.error (RunErr.panic PanicSite.diffPath) := by
  obtain ⟨changed, hch⟩ := diffPhase_ok hnd hshape
  unfold runReport
  rw [hch]
  refine ⟨?_, ?_, ?_⟩ <;> {
    simp only []
    split <;> simp
  }

theorem runSched_no_panic3 (env : Env) (logs0 : List LogEvent)
    (fmts : List (FormatterName × Formatter)) (acc : WalkAcc) (cache1 : CacheManifest)
    (hlk : ∀ g ∈ keysOf acc.found, (alookup fmts g).isSome = true)
    (hwf : MSWf acc.found) :
    (runSched env logs0 fmts acc cache1).res
        ≠ Except.error (RunErr.panic PanicSite.fmtLookup) ∧
    (runSched env logs0 fmts acc cache1).res
        ≠ Except.error (RunErr.panic PanicSite.diffName) ∧
    (runSched env logs0 fmts acc cache1).res
        ≠ Except.error (RunErr.panic PanicSite.diffPath) := by
  simp only [runSched]
  cases hs : schedule fmts env.fmtOutcome env.postMtime (cache1.filter_matches acc.found) with
  | error s =>
    have hsite : s = PanicSite.postMtime := by
      obtain ⟨ent, hent, herr⟩ := mapM_error_mem _ _ _ hs
      rcases schedEntry_error_site herr with ⟨-, hnone⟩ | hpost
      · exfalso
        have hk : ent.1 ∈ keysOf (cache1.filter_matches acc.found) :=
          mem_keysOf_of_mem (show (ent.1, ent.2) ∈ _ by simpa using hent)
        rw [keysOf_filter_matches] at hk
        have := hlk ent.1 hk
        rw [hnone] at this
        cases this
      · exact hpost
    subst hsite
    exact ⟨by simp [RunTrace.base], by simp [RunTrace.base], by simp [RunTrace.base]⟩
  | ok newM =>
    have hndF : NodupKeys (cache1.filter_matches acc.found) := by
      unfold NodupKeys
      rw [keysOf_filter_matches]
      exact hwf.1
    exact runReport_no_panic3 env _ acc _ newM _ hndF (schedule_shape hs)

theorem runConfig_no_panic3 (env : Env) (rlogs : List LogEvent) (kept : List FsPath)
    (cfg : List (FormatterName × FmtConfig)) :
    (runConfig env rlogs kept cfg).res
        ≠ Except.error (RunErr.panic PanicSite.fmtLookup) ∧
    (runConfig env rlogs kept cfg).res
        ≠ Except.error (RunErr.panic PanicSite.diffName) ∧
    (runConfig env rlogs kept cfg).res
        ≠ Except.error (RunErr.panic PanicSite.diffPath) := by
  simp only [runConfig]
  cases hw : walkClassify (loadFormatters env.tree_root env.mkFormatter cfg).formatters
      (walker kept env.ignored env.fsEvents) with
  | error site =>
    have hsite : site = PanicSite.metaMtime := walk_fold_error_site _ _ _ _ hw
    subst hsite
    exact ⟨by simp [RunTrace.base], by simp [RunTrace.base], by simp [RunTrace.base]⟩
  | ok acc =>
    refine runSched_no_panic3 env _ _ acc _ ?_ (walkClassify_wf hw)
    intro g hg
    obtain ⟨ent, hent, hname⟩ := walkClassify_keys hw g hg
    rw [alookup_isSome_iff, hname,
      loadFormatters_names env.tree_root env.mkFormatter cfg ent hent]
    exact mem_keysOf_of_mem (show (ent.1, ent.2) ∈ _ by simpa using hent)

theorem runResolved_no_panic3 (env : Env) (r : ResolveOut) :
    (runResolved env r).res ≠ Except.error (RunErr.panic PanicSite.fmtLookup) ∧
    (runResolved env r).res ≠ Except.error (RunErr.panic PanicSite.diffName) ∧
    (runResolved env r).res ≠ Except.error (RunErr.panic PanicSite.diffPath) := by
  unfold runResolved
  split
  · exact ⟨by simp [RunTrace.base], by simp [RunTrace.base], by simp [RunTrace.base]⟩
  · cases h : env.config with
    | error msg =>
      exact ⟨by simp [RunTrace.base], by simp [RunTrace.base], by simp [RunTrace.base]⟩
    | ok cfg =>
      simp only [h]
      exact runConfig_no_panic3 env _ _ _

/-! ### Path-resolution and containment lemmas -/

theorem expand_path_absolute {p wd : FsPath} (h : wd.isAbsolute = true) :
    (expand_path p wd).isAbsolute = true := by
  unfold expand_path
  by_cases hp : p.absolute
  · rw [if_pos hp]
    exact hp
  · rw [if_neg hp]
    exact h

theorem startsWith_trans {a b c : FsPath} (h1 : a.startsWith b = true)
    (h2 : b.startsWith c = true) : a.startsWith c = true := by
  unfold FsPath.startsWith at h1 h2 ⊢
  simp only [Bool.and_eq_true, beq_iff_eq, List.isPrefixOf_iff_prefix] at h1 h2 ⊢
  exact ⟨by rw [h1.1, h2.1], h2.2.trans h1.2⟩

theorem resolveStep_kept {tree_root work_dir : FsPath} {acc : ResolveOut} {path : FsPath}
    (h : ∀ q ∈ acc.kept, q.startsWith tree_root = true) :
    ∀ q ∈ (resolveStep tree_root work_dir acc path).kept, q.startsWith tree_root = true := by
  intro q hq
  unfold resolveStep at hq
  by_cases hs : (expand_path path work_dir).startsWith tree_root
  · rw [if_pos hs] at hq
    rcases List.mem_append.mp hq with hm | hm
    · exact h q hm
    · rw [List.mem_singleton] at hm
      subst hm
      exact hs
  · rw [if_neg hs] at hq
    exact h q hq

theorem resolvePaths_kept (tree_root work_dir : FsPath) (paths : List FsPath) :
    ∀ q ∈ (resolvePaths tree_root work_dir paths).kept, q.startsWith tree_root = true := by
  unfold resolvePaths
  have hgen : ∀ (l : List FsPath) (acc : ResolveOut),
      (∀ q ∈ acc.kept, q.startsWith tree_root = true) →
      ∀ q ∈ (l.foldl (resolveStep tree_root work_dir) acc).kept,
        q.startsWith tree_root = true := by
    intro l
    induction l with
    | nil => intro acc h; exact h
    | cons hd tl ih =>
      intro acc h
      rw [List.foldl_cons]
      exact ih _ (resolveStep_kept h)
  exact hgen paths ⟨[], [], []⟩ (by intro q hq; cases hq)

theorem resolveStep_logs_mono {tree_root work_dir : FsPath} {acc : ResolveOut}
    {path : FsPath} {e : LogEvent} (h : e ∈ acc.logs) :
    e ∈ (resolveStep tree_root work_dir acc path).logs := by
  unfold resolveStep
  by_cases hs : (expand_path path work_dir).startsWith tree_root
  · rw [if_pos hs]
    exact h
  · rw [if_neg hs]
    exact List.mem_append_left _ h

theorem resolve_fold_logs_mono (tree_root work_dir : FsPath) :
    ∀ (l : List FsPath) (acc : ResolveOut) (e : LogEvent), e ∈ acc.logs →
    e ∈ (l.foldl (resolveStep tree_root work_dir) acc).logs := by
  intro l
  induction l with
  | nil => intro acc e h; exact h
  | cons hd tl ih =>
    intro acc e h
    rw [List.foldl_cons]
    exact ih _ _ (resolveStep_logs_mono h)

theorem resolvePaths_warn (tree_root work_dir : FsPath) (paths : List FsPath) (p : FsPath)
    (hp : p ∈ paths) (hout : (expand_path p work_dir).startsWith tree_root = false) :
    LogEvent.warnOutsideRoot p ∈ (resolvePaths tree_root work_dir paths).logs := by
  unfold resolvePaths
  have hgen : ∀ (l : List FsPath) (acc : ResolveOut), p ∈ l →
      LogEvent.warnOutsideRoot p ∈ (l.foldl (resolveStep tree_root work_dir) acc).logs := by
    intro l
    induction l with
    | nil => intro acc h; cases h
    | cons hd tl ih =>
      intro acc h
      rw [List.foldl_cons]
      rcases List.mem_cons.mp h with rfl | hmem
      · refine resolve_fold_logs_mono tree_root work_dir tl _ _ ?_
        unfold resolveStep
        rw [if_neg (by rw [hout]; simp)]
        exact List.mem_append_right _ (List.mem_singleton.mpr rfl)
      · exact ih _ hmem
  exact hgen paths ⟨[], [], []⟩ hp

theorem walker_ok_mem {roots : List FsPath} {ign : FsPath → Bool} {fs : List WalkEvent}
    {e : DirEntry} (h : WalkEvent.ok e ∈ walker roots ign fs) :
    ∃ r ∈ roots, e.path.startsWith r = true := by
  unfold walker at h
  have h2 : (roots.any (fun r => e.path.startsWith r) && !(ign e.path)) = true :=
    (List.mem_filter.mp h).2
  simp only [Bool.and_eq_true, List.any_eq_true] at h2
  obtain ⟨⟨r, hr, hsw⟩, -⟩ := h2
  exact ⟨r, hr, hsw⟩

theorem schedInvoked_mem {m : MatchSet} {f : FormatterName} {ps : List FsPath}
    (h : (f, ps) ∈ schedInvoked m) : ∃ pm, (f, pm) ∈ m ∧ ps = keysOf pm := by
  unfold schedInvoked at h
  obtain ⟨ent, hent, hsome⟩ := List.mem_filterMap.mp h
  by_cases hemp : (keysOf ent.2).isEmpty
  · rw [if_pos hemp] at hsome
    cases hsome
  · rw [if_neg hemp] at hsome
    have := Option.some.inj hsome
    rw [Prod.mk.injEq] at this
    obtain ⟨h1, h2⟩ := this
    exact ⟨ent.2, by rw [← h1]; simpa using hent, h2.symm⟩

/-! ### Stage lemmas: logs, match set and invocations -/

theorem runReport_mem_logs (env : Env) (logs0 : List LogEvent) (acc : WalkAcc)
    (filtered newM : MatchSet) (cache2 : CacheManifest) {e : LogEvent} (he : e ∈ logs0) :
    e ∈ (runReport env logs0 acc filtered newM cache2).logs := by
  unfold runReport
  split <;> exact he

theorem runSched_mem_logs (env : Env) (logs0 : List LogEvent)
    (fmts : List (FormatterName × Formatter)) (acc : WalkAcc) (cache1 : CacheManifest)
    {e : LogEvent} (he : e ∈ logs0) :
    e ∈ (runSched env logs0 fmts acc cache1).logs := by
  simp only [runSched]
  cases schedule fmts env.fmtOutcome env.postMtime (cache1.filter_matches acc.found) with
  | error s => exact List.mem_append_left _ he
  | ok newM =>
    exact runReport_mem_logs env _ acc _ newM _
      (List.mem_append_left _ (List.mem_append_left _ he))

theorem runConfig_mem_logs (env : Env) (rlogs : List LogEvent) (kept : List FsPath)
    (cfg : List (FormatterName × FmtConfig)) {e : LogEvent} (he : e ∈ rlogs) :
    e ∈ (runConfig env rlogs kept cfg).logs := by
  simp only [runConfig]
  cases walkClassify (loadFormatters env.tree_root env.mkFormatter cfg).formatters
      (walker kept env.ignored env.fsEvents) with
  | error site => exact List.mem_append_left _ he
  | ok acc => exact runSched_mem_logs env _ _ acc _ (List.mem_append_left _ he)

theorem runResolved_mem_logs (env : Env) (r : ResolveOut) {e : LogEvent} (he : e ∈ r.logs) :
    e ∈ (runResolved env r).logs := by
  unfold runResolved
  split
  · exact List.mem_append_left _ he
  · cases env.config with
    | error msg => exact he
    | ok cfg => exact runConfig_mem_logs env _ _ _ he

theorem runReport_matchSet (env : Env) (logs0 : List LogEvent) (acc : WalkAcc)
    (filtered newM : MatchSet) (cache2 : CacheManifest) :
    (runReport env logs0 acc filtered newM cache2).matchSet = acc.found := by
  unfold runReport
  split <;> rfl

theorem runSched_matchSet (env : Env) (logs0 : List LogEvent)
    (fmts : List (FormatterName × Formatter)) (acc : WalkAcc) (cache1 : CacheManifest) :
    (runSched env logs0 fmts acc cache1).matchSet = acc.found := by
  simp only [runSched]
  cases schedule fmts env.fmtOutcome env.postMtime (cache1.filter_matches acc.found) with
  | error s => rfl
  | ok newM => exact runReport_matchSet env _ acc _ newM _

theorem runConfig_matchSet_paths (env : Env) (rlogs : List LogEvent) (kept : List FsPath)
    (cfg : List (FormatterName × FmtConfig)) (q : FsPath) :
    q ∈ msPaths (runConfig env rlogs kept cfg).matchSet →
    ∃ e : DirEntry, WalkEvent.ok e ∈ walker kept env.ignored env.fsEvents ∧ e.path = q := by
  simp only [runConfig]
  cases hw : walkClassify (loadFormatters env.tree_root env.mkFormatter cfg).formatters
      (walker kept env.ignored env.fsEvents) with
  | error site =>
    intro h
    simp [RunTrace.base, msPaths] at h
  | ok acc =>
    rw [runSched_matchSet]
    exact walkClassify_paths hw q

theorem runResolved_matchSet_paths (env : Env) (r : ResolveOut) (q : FsPath) :
    q ∈ msPaths (runResolved env r).matchSet →
    ∃ e : DirEntry, WalkEvent.ok e ∈ walker r.kept env.ignored env.fsEvents ∧ e.path = q := by
  unfold runResolved
  split
  · intro h
    simp [RunTrace.base, msPaths] at h
  · cases env.config with
    | error msg =>
      intro h
      simp [RunTrace.base, msPaths] at h
    | ok cfg => exact runConfig_matchSet_paths env _ _ _ q

theorem runReport_invoked (env : Env) (logs0 : List LogEvent) (acc : WalkAcc)
    (filtered newM : MatchSet) (cache2 : CacheManifest) :
    (runReport env logs0 acc filtered newM cache2).invoked = schedInvoked filtered := by
  unfold runReport
  split <;> rfl

theorem runSched_invoked_paths (env : Env) (logs0 : List LogEvent)
    (fmts : List (FormatterName × Formatter)) (acc : WalkAcc) (cache1 : CacheManifest)
    (f : FormatterName) (ps : List FsPath) (q : FsPath) :
    (f, ps) ∈ (runSched env logs0 fmts acc cache1).invoked → q ∈ ps →
    q ∈ msPaths acc.found := by
  simp only [runSched]
  cases schedule fmts env.fmtOutcome env.postMtime (cache1.filter_matches acc.found) with
  | error s =>
    intro h
    simp [RunTrace.base] at h
  | ok newM =>
    rw [runReport_invoked]
    intro h hq
    obtain ⟨pm, hpm, rfl⟩ := schedInvoked_mem h
    exact msPaths_filter_matches (mem_msPaths.mpr ⟨(f, pm), hpm, hq⟩)

theorem runConfig_invoked_paths (env : Env) (rlogs : List LogEvent) (kept : List FsPath)
    (cfg : List (FormatterName × FmtConfig)) (f : FormatterName) (ps : List FsPath)
    (q : FsPath) :
    (f, ps) ∈ (runConfig env rlogs kept cfg).invoked → q ∈ ps →
    ∃ e : DirEntry, WalkEvent.ok e ∈ walker kept env.ignored env.fsEvents ∧ e.path = q := by
  simp only [runConfig]
  cases hw : walkClassify (loadFormatters env.tree_root env.mkFormatter cfg).formatters
      (walker kept env.ignored env.fsEvents) with
  | error site =>
    intro h
    simp [RunTrace.base] at h
  | ok acc =>
    intro h hq
    exact walkClassify_paths hw q (runSched_invoked_paths env _ _ acc _ f ps q h hq)

theorem runResolved_invoked_paths (env : Env) (r : ResolveOut) (f : FormatterName)
    (ps : List FsPath) (q : FsPath) :
    (f, ps) ∈ (runResolved env r).invoked → q ∈ ps →
    ∃ e : DirEntry, WalkEvent.ok e ∈ walker r.kept env.ignored env.fsEvents ∧ e.path = q := by
  unfold runResolved
  split
  · intro h
    simp [RunTrace.base] at h
  · cases env.config with
    | error msg =>
      intro h
      simp [RunTrace.base] at h
    | ok cfg => exact runConfig_invoked_paths env _ _ _ f ps q

/-- The fail-on-change contract a stage of the pipeline satisfies: the
change-detected failure appears exactly on a reported run with changes and
the flag set, and a reported run without the flag succeeds. -/
def C3Prop (env : Env) (t : RunTrace) : Prop :=
  (t.res = Except.error RunErr.failOnChange ↔
    (t.reachedReport = true ∧ 0 < t.reformatted ∧ env.fail_on_change = true)) ∧
  (t.reachedReport = true → env.fail_on_change = false → t.res = Except.ok ())

theorem runReport_c3prop (env : Env) (logs0 : List LogEvent) (acc : WalkAcc)
    (filtered newM : MatchSet) (cache2 : CacheManifest) :
    C3Prop env (runReport env logs0 acc filtered newM cache2) := by
  unfold C3Prop runReport
  split
  · simp
  · rename_i changed _
    constructor
    · by_cases hc : env.fail_on_change = true
      · by_cases hz : countChanged changed = 0
        · simp [hc, hz]
        · simp [hc, hz, Nat.pos_of_ne_zero hz]
      · simp only [Bool.not_eq_true] at hc
        simp [hc]
    · intro _ hfoc
      simp [hfoc]

theorem runSched_c3prop (env : Env) (logs0 : List LogEvent)
    (fmts : List (FormatterName × Formatter)) (acc : WalkAcc) (cache1 : CacheManifest) :
    C3Prop env (runSched env logs0 fmts acc cache1) := by
  simp only [runSched]
  cases h : schedule fmts env.fmtOutcome env.postMtime (cache1.filter_matches acc.found) with
  | error site => exact ⟨by simp [RunTrace.base], by simp [RunTrace.base]⟩
  | ok newM => exact runReport_c3prop _ _ _ _ _ _

theorem runConfig_c3prop (env : Env) (rlogs : List LogEvent) (kept : List FsPath)
    (cfg : List (FormatterName × FmtConfig)) :
    C3Prop env (runConfig env rlogs kept cfg) := by
  simp only [runConfig]
  cases h : walkClassify (loadFormatters env.tree_root env.mkFormatter cfg).formatters
      (walker kept env.ignored env.fsEvents) with
  | error site => exact ⟨by simp [RunTrace.base], by simp [RunTrace.base]⟩
  | ok acc => exact runSched_c3prop _ _ _ _ _

theorem runResolved_c3prop (env : Env) (r : ResolveOut) :
    C3Prop env (runResolved env r) := by
  unfold runResolved
  split
  · exact ⟨by simp [RunTrace.base], by simp [RunTrace.base]⟩
  · cases h : env.config with
    | error msg => exact ⟨by simp [RunTrace.base], by simp [RunTrace.base]⟩
    | ok cfg => simp only [h]; exact runConfig_c3prop _ _ _ _

/-! ### C7: walk error handling -/

/-- C7: during the tree walk, an entry without a determinable file type is
logged with a warning and skipped without being classified or counted; a
traversal error on an individual event is logged as a warning and the walk
continues with the remaining events; but a missing metadata read for a file
entry matched by some formatter is a fatal panic that aborts the walk rather
than a recoverable skip. -/
theorem c7_walk_error_handling :
    (∀ (fmts : List (FormatterName × Formatter)) (acc : WalkAcc) (p : FsPath)
       (md : Option Mtime),
      walkStep fmts acc (WalkEvent.ok ⟨p, none, md⟩) =
        Except.ok { acc with logs := acc.logs ++ [LogEvent.warnNoFileType p] }) ∧
    (∀ (fmts : List (FormatterName × Formatter)) (acc : WalkAcc) (msg : String)
       (evs : List WalkEvent),
      List.foldlM (walkStep fmts) acc (WalkEvent.err msg :: evs) =
        List.foldlM (walkStep fmts)
          { acc with logs := acc.logs ++ [LogEvent.warnTraversal msg] } evs) ∧
    (∀ (fmts : List (FormatterName × Formatter)) (acc : WalkAcc) (p : FsPath),
      (∃ f ∈ fmts, f.2.isMatch p = true) →
      walkStep fmts acc (WalkEvent.ok ⟨p, some false, none⟩) =
        Except.error PanicSite.metaMtime) ∧
    (∀ (fmts : List (FormatterName × Formatter)) (acc : WalkAcc) (ev : WalkEvent)
       (evs : List WalkEvent) (s : PanicSite),
      walkStep fmts acc ev = Except.error s →
      List.foldlM (walkStep fmts) acc (ev :: evs) = Except.error s) := by
  refine ⟨?_, ?_, ?_, ?_⟩
  · intro fmts acc p md
    rfl
  · intro fmts acc msg evs
    rw [List.foldlM_cons]
    rfl
  · intro fmts acc p h
    exact classify_foldlM_none_panics p fmts _ h
  · intro fmts acc ev evs s h
    rw [List.foldlM_cons, h, except_bind_error]

/-- C7 witness: with a formatter matching the file, a missing metadata read
panics, and the panic aborts the remaining walk. -/
theorem c7_witness :
    walkStep fanFmts ⟨0, 0, [], []⟩ (WalkEvent.ok ⟨sampleFile, some false, none⟩) =
      Except.error PanicSite.metaMtime ∧
    List.foldlM (walkStep fanFmts) ⟨0, 0, [], []⟩
        (WalkEvent.ok ⟨sampleFile, some false, none⟩ :: [WalkEvent.err "boom"]) =
      Except.error PanicSite.metaMtime := by
  have h3 := c7_walk_error_handling.2.2.1 fanFmts ⟨0, 0, [], []⟩ sampleFile
    ⟨("a", fmtA), by simp [fanFmts], rfl⟩
  exact ⟨h3, c7_walk_error_handling.2.2.2 fanFmts ⟨0, 0, [], []⟩ _ _ _ h3⟩

/-! ### C8: fan-out -/

/-- C8: a traversed file matching two formatters is recorded in the match set
under both, with the mtime observed on the entry; the matched counter counts
every (formatter, file) match separately; and any two formatters whose
post-filter batches contain the file are both invoked on it in the same
run. -/
theorem c8_fan_out :
    (∀ (fmts : List (FormatterName × Formatter)) (acc acc2 : WalkAcc) (p : FsPath)
       (t : Mtime) (f1 f2 : Formatter),
      walkStep fmts acc (WalkEvent.ok ⟨p, some false, some t⟩) = Except.ok acc2 →
      f1 ∈ fmts.map Prod.snd → f2 ∈ fmts.map Prod.snd →
      f1.isMatch p = true → f2.isMatch p = true →
      alookup ((alookup acc2.found f1.name).getD []) p = some t ∧
      alookup ((alookup acc2.found f2.name).getD []) p = some t ∧
      acc2.matched = acc.matched + fmts.countP (fun ent => ent.2.isMatch p)) ∧
    (∀ (m : MatchSet) (f1 f2 : FormatterName) (pm1 pm2 : List (FsPath × Mtime)) (p : FsPath),
      alookup m f1 = some pm1 → alookup m f2 = some pm2 →
      p ∈ keysOf pm1 → p ∈ keysOf pm2 →
      (f1, keysOf pm1) ∈ schedInvoked m ∧ (f2, keysOf pm2) ∈ schedInvoked m) := by
  constructor
  · intro fmts acc acc2 p t f1 f2 h h1 h2 hm1 hm2
    rw [walkStep_file] at h
    cases h
    refine ⟨classifyPure_found p t fmts _ f1 h1 hm1,
      classifyPure_found p t fmts _ f2 h2 hm2, ?_⟩
    rw [classifyPure_matched]
  · intro m f1 f2 pm1 pm2 p h1 h2 hp1 hp2
    constructor
    · refine List.mem_filterMap.mpr ⟨(f1, pm1), alookup_mem h1, ?_⟩
      have hne : keysOf pm1 ≠ [] := List.ne_nil_of_mem hp1
      simp [hne]
    · refine List.mem_filterMap.mpr ⟨(f2, pm2), alookup_mem h2, ?_⟩
      have hne : keysOf pm2 ≠ [] := List.ne_nil_of_mem hp2
      simp [hne]

/-- C8 witness: the concrete file matching both `a` and `b` is recorded under
both, counted twice, and both batches are invoked on it. -/
theorem c8_witness :
    (alookup ((alookup fanAcc.found fmtA.name).getD []) sampleFile = some 10 ∧
     alookup ((alookup fanAcc.found fmtB.name).getD []) sampleFile = some 10 ∧
     fanAcc.matched = 0 + fanFmts.countP (fun ent => ent.2.isMatch sampleFile)) ∧
    (("a", keysOf [(sampleFile, (10 : Mtime))]) ∈ schedInvoked fanAcc.found ∧
     ("b", keysOf [(sampleFile, (10 : Mtime))]) ∈ schedInvoked fanAcc.found) := by
  constructor
  · exact c8_fan_out.1 fanFmts ⟨0, 0, [], []⟩ fanAcc sampleFile 10 fmtA fmtB
      (by rfl) (by simp [fanFmts]) (by simp [fanFmts]) (by rfl) (by rfl)
  · exact c8_fan_out.2 fanAcc.found "a" "b" [(sampleFile, 10)] [(sampleFile, 10)] sampleFile
      (by rfl) (by rfl) (by simp [keysOf]) (by simp [keysOf])

/-! ### C9: absoluteness contract -/

/-- C9 counterexample: `run_treefmt` does not assert absoluteness of the
target paths; a run whose only target path is relative proceeds normally
instead of hitting the assertion failure the claim predicts. -/
theorem c9_relative_target_no_assert :
    (∃ p ∈ relTargetEnv.target_paths, p.isAbsolute = false) ∧
    (runTreefmt relTargetEnv).res = Except.ok () := by
  constructor
  · exact ⟨⟨false, []⟩, by simp [relTargetEnv, baseEnv], rfl⟩
  · rfl

/-- C9 amended: the run fails the absoluteness assertion exactly when one of
the four path arguments (project root, working directory, cache directory,
configuration file) is not absolute; relative target paths are not asserted
on, they are resolved against the working directory. -/
theorem c9_assert_absolute (env : Env) :
    (runTreefmt env).res = Except.error RunErr.assertFailed ↔
      (env.tree_root.isAbsolute && env.work_dir.isAbsolute
        && env.cache_dir.isAbsolute && env.treefmt_toml.isAbsolute) = false := by
  unfold runTreefmt
  split
  · rename_i h
    simp only [Bool.not_eq_true'] at h
    simp [RunTrace.base, h]
  · rename_i h
    simp only [Bool.not_eq_true', Bool.not_eq_false] at h
    constructor
    · intro hres
      exact absurd hres (runResolved_res_ne_assert env _)
    · intro hfalse
      rw [h] at hfalse
      cases hfalse

/-! ### C6: empty target list short-circuit -/

/-- C6: when path resolution leaves no target paths, the run returns success
immediately: no config load, no formatter construction, no tree walk, and the
cache is neither read nor written; no formatter is invoked. -/
theorem c6_empty_paths_short_circuit (env : Env)
    (habs : (env.tree_root.isAbsolute && env.work_dir.isAbsolute
      && env.cache_dir.isAbsolute && env.treefmt_toml.isAbsolute) = true)
    (hempty : (resolvePaths env.tree_root env.work_dir env.target_paths).kept = []) :
    (runTreefmt env).res = Except.ok () ∧
    (runTreefmt env).configLoaded = false ∧
    (runTreefmt env).formattersLoaded = false ∧
    (runTreefmt env).walkRun = false ∧
    (runTreefmt env).cacheRead = false ∧
    (runTreefmt env).cacheWritten = none ∧
    (runTreefmt env).invoked = [] := by
  unfold runTreefmt
  simp [habs, runResolved, hempty, RunTrace.base]

/-- C6 witness: the short-circuit on a concrete run with an empty target
list. -/
theorem c6_witness :
    (runTreefmt noPathsEnv).res = Except.ok () ∧
    (runTreefmt noPathsEnv).configLoaded = false ∧
    (runTreefmt noPathsEnv).formattersLoaded = false ∧
    (runTreefmt noPathsEnv).walkRun = false ∧
    (runTreefmt noPathsEnv).cacheRead = false ∧
    (runTreefmt noPathsEnv).cacheWritten = none ∧
    (runTreefmt noPathsEnv).invoked = [] :=
  c6_empty_paths_short_circuit noPathsEnv (by decide) (by decide)

/-! ### C3: fail-on-change gating -/

/-- C3: the run returns the distinct change-detected failure iff it reached
the reporting phase with at least one reformatted file and fail-on-change
enabled; with fail-on-change disabled, a run that reaches reporting returns
success no matter how many files changed. -/
theorem c3_fail_on_change (env : Env) :
    ((runTreefmt env).res = Except.error RunErr.failOnChange ↔
      ((runTreefmt env).reachedReport = true ∧ 0 < (runTreefmt env).reformatted
        ∧ env.fail_on_change = true)) ∧
    ((runTreefmt env).reachedReport = true → env.fail_on_change = false →
      (runTreefmt env).res = Except.ok ()) := by
  unfold runTreefmt
  split
  · exact ⟨by simp [RunTrace.base], by simp [RunTrace.base]⟩
  · exact runResolved_c3prop env _

/-- C3 witness: a concrete run with one reformatted file; fail-on-change
turns it into the distinct failure, and without the flag it succeeds. -/
theorem c3_witness :
    (runTreefmt { baseEnv with fail_on_change := true }).res
        = Except.error RunErr.failOnChange ∧
    (runTreefmt baseEnv).res = Except.ok () := by
  constructor
  · exact (c3_fail_on_change { baseEnv with fail_on_change := true }).1.2
      ⟨by decide, by decide, rfl⟩
  · exact (c3_fail_on_change baseEnv).2 (by decide) rfl

/-! ### C4: successful batch records post-run mtimes -/

/-- C4: for a formatter whose batch invocation succeeds, the engine re-reads
the mtime of every path of the batch, and these post-run mtimes are the
recorded mtimes for all of the batch's paths both in the result set and in
the cache, regardless of whether each file's content changed. -/
theorem c4_success_records_post_mtimes
    (fmts : List (FormatterName × Formatter)) (oc : FormatterName → List FsPath → Bool)
    (post : FormatterName → FsPath → Option Mtime) (m newM : MatchSet)
    (f : FormatterName) (pmap : List (FsPath × Mtime)) (cache : CacheManifest)
    (hnd : NodupKeys m) (hndp : NodupKeys pmap) (hmem : (f, pmap) ∈ m)
    (hne : (keysOf pmap).isEmpty = false) (hoc : oc f (keysOf pmap) = true)
    (hsched : schedule fmts oc post m = Except.ok newM) :
    ∃ newPaths, alookup newM f = some newPaths ∧ keysOf newPaths = keysOf pmap ∧
      (∀ p, p ∈ keysOf pmap → alookup newPaths p = post f p) ∧
      (∀ p t, (p, t) ∈ newPaths →
        alookup ((alookup (CacheManifest.add_results cache newM).entries f).getD []) p
          = some t) := by
  obtain ⟨res, hres, hentry⟩ := mapM_ok_mem _ m newM hsched (f, pmap) hmem
  have hndNew : NodupKeys newM := by
    unfold NodupKeys
    rw [shape_keys (schedule_shape hsched)]
    exact hnd
  cases hlk : alookup fmts f with
  | none =>
    rw [schedEntry_none hlk] at hentry
    cases hentry
  | some fmt =>
    rw [schedEntry_success_eq hlk hne hoc] at hentry
    obtain ⟨l, hl, rfl⟩ := except_map_ok_inv hentry
    have hkeys : keysOf l = keysOf pmap := readPost_mapM_keys post f _ _ hl
    have hndl : NodupKeys l := by
      unfold NodupKeys
      rw [hkeys]
      exact hndp
    refine ⟨l, alookup_of_mem_nodup hndNew hres, hkeys, ?_, ?_⟩
    · intro p hp
      rw [← hkeys] at hp
      obtain ⟨t, hpt⟩ := mem_keysOf_exists hp
      rw [alookup_of_mem_nodup hndl hpt]
      exact (readPost_mapM_post post f _ _ hl (p, t) hpt).symm
    · intro p t hpt
      exact add_results_lookup hndNew hres hndl p t hpt

/-- C4 witness: a concrete successful batch over one file with pre-run mtime
10 and post-run mtime 20. -/
theorem c4_witness :
    ∃ newPaths, alookup ([("a", [(sampleFile, 20)])] : MatchSet) "a" = some newPaths ∧
      keysOf newPaths = keysOf [(sampleFile, (10 : Mtime))] ∧
      (∀ p, p ∈ keysOf [(sampleFile, (10 : Mtime))] →
        alookup newPaths p = some (20 : Mtime)) ∧
      (∀ p t, (p, t) ∈ newPaths →
        alookup ((alookup (CacheManifest.add_results CacheManifest.empty
          [("a", [(sampleFile, 20)])]).entries "a").getD []) p = some t) :=
  c4_success_records_post_mtimes [("a", fmtA)] (fun _ _ => true) (fun _ _ => some 20)
    [("a", [(sampleFile, 10)])] [("a", [(sampleFile, 20)])] "a" [(sampleFile, 10)]
    CacheManifest.empty (by decide) (by decide) (by decide) (by decide) (by decide) (by rfl)

/-! ### C1: failed batch behaviour -/

/-- C1 counterexample: a failed batch's paths are recorded in the cache with
their pre-run mtimes, and as a consequence the next run (with the file
unchanged on disk) finds the pair clean and does NOT schedule it again,
contrary to the claim's final consequence. -/
theorem c1_counterexample :
    ((runTreefmt failEnv).filteredSet = [("a", [(sampleFile, 10)])] ∧
     (runTreefmt failEnv).invoked = [("a", [sampleFile])] ∧
     LogEvent.errFormatterFailed "a" ∈ (runTreefmt failEnv).logs ∧
     (runTreefmt failEnv).cacheWritten =
       some ⟨[("a", ⟨0⟩)], [("a", [(sampleFile, 10)])]⟩) ∧
    ((runTreefmt rerunAfterFailEnv).filteredSet = [("a", [])] ∧
     (runTreefmt rerunAfterFailEnv).invoked = [] ∧
     (runTreefmt rerunAfterFailEnv).res = Except.ok ()) := by
  decide

/-- C1 amended: a failed batch keeps its paths with their pre-run mtimes in
the result set, records those pre-run mtimes in the cache, reports the
failure, and aborts neither the other batches nor the overall run; but since
the recorded pre-run mtime equals what an unchanged file shows next run, the
cache treats such a pair as clean and the next run does not reschedule it. -/
theorem c1_failed_batch_behaviour
    (fmts : List (FormatterName × Formatter)) (oc : FormatterName → List FsPath → Bool)
    (post : FormatterName → FsPath → Option Mtime) (m newM : MatchSet)
    (f : FormatterName) (pmap : List (FsPath × Mtime)) (cache : CacheManifest)
    (hnd : NodupKeys m) (hndp : NodupKeys pmap) (hmem : (f, pmap) ∈ m)
    (hlk : (alookup fmts f).isSome = true)
    (hne : (keysOf pmap).isEmpty = false) (hfail : oc f (keysOf pmap) = false)
    (hsched : schedule fmts oc post m = Except.ok newM) :
    schedEntry fmts oc post (f, pmap) = Except.ok (f, pmap) ∧
    alookup newM f = some pmap ∧
    LogEvent.errFormatterFailed f ∈ schedLogs oc m ∧
    (∀ p t, (p, t) ∈ pmap →
      alookup ((alookup (CacheManifest.add_results cache newM).entries f).getD []) p
        = some t) ∧
    ((∀ ent ∈ m, ∃ r, schedEntry fmts oc post ent = Except.ok r) →
      ∃ nm, schedule fmts oc post m = Except.ok nm) ∧
    (∀ (c : CacheManifest) (pm2 : List (FsPath × Mtime)) (p : FsPath) (t : Mtime),
      alookup ((alookup c.entries f).getD []) p = some t →
      ∀ ent ∈ c.filter_matches [(f, pm2)], (p, t) ∉ ent.2) := by
  obtain ⟨fmt, hfmt⟩ := Option.isSome_iff_exists.mp hlk
  have hentry : schedEntry fmts oc post (f, pmap) = Except.ok (f, pmap) :=
    schedEntry_fail hfmt hne hfail
  have hndNew : NodupKeys newM := by
    unfold NodupKeys
    rw [shape_keys (schedule_shape hsched)]
    exact hnd
  obtain ⟨res, hres, hentry2⟩ := mapM_ok_mem _ m newM hsched (f, pmap) hmem
  rw [hentry] at hentry2
  cases hentry2
  refine ⟨hentry, alookup_of_mem_nodup hndNew hres, ?_, ?_, ?_, ?_⟩
  · refine List.mem_filterMap.mpr ⟨(f, pmap), hmem, ?_⟩
    simp [hne, hfail]
  · intro p t hpt
    exact add_results_lookup hndNew hres hndp p t hpt
  · intro hall
    exact mapM_ok_of_forall _ m hall
  · intro c pm2 p t hc ent hent hmemp
    simp only [CacheManifest.filter_matches, List.map_cons, List.map_nil,
      List.mem_singleton] at hent
    subst hent
    simp only [List.mem_filter] at hmemp
    have := hmemp.2
    simp only [decide_eq_true_eq] at this
    exact this hc

/-- C1 witness: a concrete failed batch keeping its pre-run mtimes
everywhere, with the resulting cache entry making the pair clean for a later
filter. -/
theorem c1_witness :
    schedEntry [("a", fmtA)] (fun _ _ => false) (fun _ _ => some 99) ("a", [(sampleFile, 10)])
        = Except.ok ("a", [(sampleFile, 10)]) ∧
    alookup ([("a", [(sampleFile, 10)])] : MatchSet) "a" = some [(sampleFile, 10)] ∧
    LogEvent.errFormatterFailed "a" ∈
      schedLogs (fun _ _ => false) [("a", [(sampleFile, 10)])] ∧
    (∀ p t, (p, t) ∈ [(sampleFile, (10 : Mtime))] →
      alookup ((alookup (CacheManifest.add_results CacheManifest.empty
        [("a", [(sampleFile, 10)])]).entries "a").getD []) p = some t) ∧
    ((∀ ent ∈ ([("a", [(sampleFile, 10)])] : MatchSet),
        ∃ r, schedEntry [("a", fmtA)] (fun _ _ => false) (fun _ _ => some 99) ent
          = Except.ok r) →
      ∃ nm, schedule [("a", fmtA)] (fun _ _ => false) (fun _ _ => some 99)
        [("a", [(sampleFile, 10)])] = Except.ok nm) ∧
    (∀ (c : CacheManifest) (pm2 : List (FsPath × Mtime)) (p : FsPath) (t : Mtime),
      alookup ((alookup c.entries "a").getD []) p = some t →
      ∀ ent ∈ c.filter_matches [("a", pm2)], (p, t) ∉ ent.2) :=
  c1_failed_batch_behaviour [("a", fmtA)] (fun _ _ => false) (fun _ _ => some 99)
    [("a", [(sampleFile, 10)])] [("a", [(sampleFile, 10)])] "a" [(sampleFile, 10)]
    CacheManifest.empty (by decide) (by decide) (by decide) (by decide) (by decide)
    (by decide) (by rfl)

/-! ### C2: change accounting -/

/-- C2 counterexample: a pair that survived cache filtering and whose actual
post-run mtime (99) differs from the walk-observed mtime (10) is nonetheless
not counted as reformatted, because its batch's invocation failed; the run
still reaches reporting with a count of zero. -/
theorem c2_counterexample :
    (runTreefmt failDirtyEnv).filteredSet = [("a", [(sampleFile, 10)])] ∧
    (runTreefmt failDirtyEnv).invoked = [("a", [sampleFile])] ∧
    failDirtyEnv.postMtime "a" sampleFile = some 99 ∧
    (runTreefmt failDirtyEnv).reachedReport = true ∧
    (runTreefmt failDirtyEnv).reformatted = 0 := by
  decide

/-- C2 amended: for every pair that survived cache filtering, the pair is
counted as reformatted iff its batch was non-empty, the batch invocation
succeeded, and the re-read post-run mtime differs from the recorded pre-run
mtime; pairs of failed or empty batches are never counted; and the reported
count is the sum over formatters of their counted paths. -/
theorem c2_change_accounting
    (fmts : List (FormatterName × Formatter)) (oc : FormatterName → List FsPath → Bool)
    (post : FormatterName → FsPath → Option Mtime) (m newM : MatchSet)
    (changed : List (FormatterName × List FsPath))
    (f : FormatterName) (pmap : List (FsPath × Mtime))
    (hnd : NodupKeys m) (hndp : NodupKeys pmap) (hmem : (f, pmap) ∈ m)
    (hsched : schedule fmts oc post m = Except.ok newM)
    (hdiff : diffPhase m newM = Except.ok changed) :
    (∃ ch, alookup changed f = some ch ∧
      ∀ p t0, (p, t0) ∈ pmap →
        (p ∈ ch ↔ ((keysOf pmap).isEmpty = false ∧ oc f (keysOf pmap) = true ∧
          post f p ≠ some t0))) ∧
    (∀ (env : Env) (logs0 : List LogEvent) (acc : WalkAcc) (cache2 : CacheManifest),
      (runReport env logs0 acc m newM cache2).reformatted = countChanged changed ∧
      (runReport env logs0 acc m newM cache2).reachedReport = true) := by
  have holm : alookup m f = some pmap := alookup_of_mem_nodup hnd hmem
  have hndNew : NodupKeys newM := by
    unfold NodupKeys
    rw [shape_keys (schedule_shape hsched)]
    exact hnd
  have hndCh : NodupKeys changed := by
    unfold NodupKeys
    rw [diffPhase_keys hdiff, shape_keys (schedule_shape hsched)]
    exact hnd
  obtain ⟨res, hres, hentry⟩ := mapM_ok_mem _ m newM hsched (f, pmap) hmem
  constructor
  · cases hlk : alookup fmts f with
    | none =>
      rw [schedEntry_none hlk] at hentry
      cases hentry
    | some fmt =>
      by_cases hemp : (keysOf pmap).isEmpty = true
      · -- empty batch: pmap has no pairs at all
        rw [schedEntry_empty hlk hemp] at hentry
        cases hentry
        obtain ⟨r, hr, hde⟩ := mapM_ok_mem _ newM changed hdiff (f, pmap) hres
        rw [diffEntry_ok holm (fun pt hpt => by
          rw [alookup_isSome_iff]
          exact mem_keysOf_of_mem (show (pt.1, pt.2) ∈ pmap by simpa using hpt))] at hde
        cases hde
        refine ⟨diffList pmap pmap, alookup_of_mem_nodup hndCh hr, ?_⟩
        intro p t0 hpt
        have : keysOf pmap = [] := by
          cases hk : keysOf pmap with
          | nil => rfl
          | cons a b => rw [hk] at hemp; cases hemp
        have : (p, t0) ∉ pmap := by
          intro hc
          rw [show keysOf pmap = [] from this] at hemp
          have := mem_keysOf_of_mem hc
          rw [‹keysOf pmap = []›] at this
          cases this
        exact absurd hpt this
      · have hempf : (keysOf pmap).isEmpty = false := eq_false_of_ne_true hemp
        by_cases hoc : oc f (keysOf pmap) = true
        · -- successful batch
          rw [schedEntry_success_eq hlk hempf hoc] at hentry
          obtain ⟨l, hl, rfl⟩ := except_map_ok_inv hentry
          have hkeys : keysOf l = keysOf pmap := readPost_mapM_keys post f _ _ hl
          have hndl : NodupKeys l := by
            unfold NodupKeys
            rw [hkeys]
            exact hndp
          obtain ⟨r, hr, hde⟩ := mapM_ok_mem _ newM changed hdiff (f, l) hres
          rw [diffEntry_ok holm (fun pt hpt => by
            rw [alookup_isSome_iff, ← hkeys]
            exact mem_keysOf_of_mem (show (pt.1, pt.2) ∈ l by simpa using hpt))] at hde
          cases hde
          refine ⟨diffList pmap l, alookup_of_mem_nodup hndCh hr, ?_⟩
          intro p t0 hpt
          have hlp : alookup pmap p = some t0 := alookup_of_mem_nodup hndp hpt
          constructor
          · intro hch
            simp only [diffList, List.mem_map, List.mem_filter] at hch
            obtain ⟨pt, ⟨hptl, hpred⟩, rfl⟩ := hch
            have hpost : post f pt.1 = some pt.2 := readPost_mapM_post post f _ _ hl pt hptl
            simp only [decide_eq_true_eq] at hpred
            refine ⟨hempf, hoc, ?_⟩
            rw [hpost]
            intro hc
            exact hpred (by rw [hlp, ← Option.some.inj hc])
          · rintro ⟨-, -, hneq⟩
            have hpk : p ∈ keysOf l := by
              rw [hkeys]
              exact mem_keysOf_of_mem hpt
            obtain ⟨t, htl⟩ := mem_keysOf_exists hpk
            have hpost : post f p = some t := readPost_mapM_post post f _ _ hl (p, t) htl
            simp only [diffList, List.mem_map, List.mem_filter]
            refine ⟨(p, t), ⟨htl, ?_⟩, rfl⟩
            simp only [decide_eq_true_eq]
            rw [hlp]
            intro hc
            exact hneq (by rw [hpost, Option.some.inj hc])
        · -- failed batch
          have hocf : oc f (keysOf pmap) = false := eq_false_of_ne_true hoc
          rw [schedEntry_fail hlk hempf hocf] at hentry
          cases hentry
          obtain ⟨r, hr, hde⟩ := mapM_ok_mem _ newM changed hdiff (f, pmap) hres
          rw [diffEntry_ok holm (fun pt hpt => by
            rw [alookup_isSome_iff]
            exact mem_keysOf_of_mem (show (pt.1, pt.2) ∈ pmap by simpa using hpt))] at hde
          cases hde
          refine ⟨diffList pmap pmap, alookup_of_mem_nodup hndCh hr, ?_⟩
          intro p t0 hpt
          constructor
          · intro hch
            simp only [diffList, List.mem_map, List.mem_filter] at hch
            obtain ⟨pt, ⟨hptl, hpred⟩, rfl⟩ := hch
            simp only [decide_eq_true_eq] at hpred
            exact absurd (alookup_of_mem_nodup hndp hptl) hpred
          · rintro ⟨-, hocT, -⟩
            rw [hocT] at hocf
            cases hocf
  · intro env logs0 acc cache2
    unfold runReport
    rw [hdiff]
    exact ⟨rfl, rfl⟩

/-- C2 witness: the amended accounting on a concrete run: one successful
formatter whose post-run mtime 20 differs from the pre-run mtime 10. -/
theorem c2_witness :
    (∃ ch, alookup ([("a", [sampleFile])] : List (FormatterName × List FsPath)) "a"
        = some ch ∧
      ∀ p t0, (p, t0) ∈ [(sampleFile, (10 : Mtime))] →
        (p ∈ ch ↔ ((keysOf [(sampleFile, (10 : Mtime))]).isEmpty = false ∧
          true = true ∧ some (20 : Mtime) ≠ some t0))) ∧
    (∀ (env : Env) (logs0 : List LogEvent) (acc : WalkAcc) (cache2 : CacheManifest),
      (runReport env logs0 acc [("a", [(sampleFile, 10)])] [("a", [(sampleFile, 20)])]
        cache2).reformatted = countChanged [("a", [sampleFile])] ∧
      (runReport env logs0 acc [("a", [(sampleFile, 10)])] [("a", [(sampleFile, 20)])]
        cache2).reachedReport = true) :=
  c2_change_accounting [("a", fmtA)] (fun _ _ => true) (fun _ _ => some 20)
    [("a", [(sampleFile, 10)])] [("a", [(sampleFile, 20)])] [("a", [sampleFile])]
    "a" [(sampleFile, 10)] (by decide) (by decide) (by decide) (by rfl) (by rfl)

/-! ### C10: scheduler totality and lookup safety -/

/-- C10: the scheduler's result map always carries exactly the same formatter
keys with exactly the same per-formatter path sets as its input (in all three
branches: empty, success, failure — only the mtimes may differ), and
consequently the formatter lookup before invocation and the two lookups of
the diff phase never hit a missing key: no run can end in those three panic
sites. -/
theorem c10_scheduler_shape_and_lookups (env : Env) :
    (∀ (fmts : List (FormatterName × Formatter)) (oc : FormatterName → List FsPath → Bool)
       (post : FormatterName → FsPath → Option Mtime) (m newM : MatchSet),
      schedule fmts oc post m = Except.ok newM →
      newM.map (fun ent => (ent.1, keysOf ent.2)) = m.map (fun ent => (ent.1, keysOf ent.2))) ∧
    (runTreefmt env).res ≠ Except.error (RunErr.panic PanicSite.fmtLookup) ∧
    (runTreefmt env).res ≠ Except.error (RunErr.panic PanicSite.diffName) ∧
    (runTreefmt env).res ≠ Except.error (RunErr.panic PanicSite.diffPath) := by
  refine ⟨fun fmts oc post m newM h => schedule_shape h, ?_⟩
  unfold runTreefmt
  split
  · exact ⟨by simp [RunTrace.base], by simp [RunTrace.base], by simp [RunTrace.base]⟩
  · exact runResolved_no_panic3 env _

/-- C10 witness: the shape preservation on a concrete successful schedule. -/
theorem c10_witness :
    ([("a", [(sampleFile, 20)])] : MatchSet).map (fun ent => (ent.1, keysOf ent.2)) =
      ([("a", [(sampleFile, 10)])] : MatchSet).map (fun ent => (ent.1, keysOf ent.2)) :=
  (c10_scheduler_shape_and_lookups baseEnv).1 [("a", fmtA)] (fun _ _ => true)
    (fun _ _ => some 20) [("a", [(sampleFile, 10)])] [("a", [(sampleFile, 20)])] (by rfl)

/-! ### C5: path resolution and root containment -/

/-- C5: every user-supplied target path is made absolute against the working
directory; when the resolved path does not start with the project root, the
run logs a warning diagnostic for it (not an error), the path never appears
in the match set, and it never contributes to any formatter's batch. -/
theorem c5_path_resolution_containment (env : Env)
    (habs : (env.tree_root.isAbsolute && env.work_dir.isAbsolute
      && env.cache_dir.isAbsolute && env.treefmt_toml.isAbsolute) = true)
    (p : FsPath) (hp : p ∈ env.target_paths)
    (hout : (expand_path p env.work_dir).startsWith env.tree_root = false) :
    (expand_path p env.work_dir).isAbsolute = true ∧
    LogEvent.warnOutsideRoot p ∈ (runTreefmt env).logs ∧
    expand_path p env.work_dir ∉ msPaths (runTreefmt env).matchSet ∧
    (∀ f ps, (f, ps) ∈ (runTreefmt env).invoked → expand_path p env.work_dir ∉ ps) := by
  have hwd : env.work_dir.isAbsolute = true := by
    simp only [Bool.and_eq_true] at habs
    exact habs.1.1.2
  have hrun : runTreefmt env =
      runResolved env (resolvePaths env.tree_root env.work_dir env.target_paths) := by
    unfold runTreefmt
    simp [habs]
  rw [hrun]
  refine ⟨expand_path_absolute hwd, ?_, ?_, ?_⟩
  · exact runResolved_mem_logs env _
      (resolvePaths_warn env.tree_root env.work_dir env.target_paths p hp hout)
  · intro hmem
    obtain ⟨e, he, heq⟩ := runResolved_matchSet_paths env _ _ hmem
    obtain ⟨r, hr, hsw⟩ := walker_ok_mem he
    rw [heq] at hsw
    have hroot := resolvePaths_kept env.tree_root env.work_dir env.target_paths r hr
    rw [startsWith_trans hsw hroot] at hout
    cases hout
  · intro f ps hinv hq
    obtain ⟨e, he, heq⟩ := runResolved_invoked_paths env _ f ps _ hinv hq
    obtain ⟨r, hr, hsw⟩ := walker_ok_mem he
    rw [heq] at hsw
    have hroot := resolvePaths_kept env.tree_root env.work_dir env.target_paths r hr
    rw [startsWith_trans hsw hroot] at hout
    cases hout

/-- C5 witness: a concrete run given a target outside the root: the warning
appears and the path reaches neither the match set nor any batch. -/
theorem c5_witness :
    (expand_path outPath outsideEnv.work_dir).isAbsolute = true ∧
    LogEvent.warnOutsideRoot outPath ∈ (runTreefmt outsideEnv).logs ∧
    expand_path outPath outsideEnv.work_dir ∉ msPaths (runTreefmt outsideEnv).matchSet ∧
    (∀ f ps, (f, ps) ∈ (runTreefmt outsideEnv).invoked →
      expand_path outPath outsideEnv.work_dir ∉ ps) :=
  c5_path_resolution_containment outsideEnv (by decide) outPath (by decide) (by decide)

end Treefmt
